import Mathlib

/-
Shallow embedding of the Government Books Management & Distribution System
(government_books_management.cpp, "Version 2.0 - Complete Edition"; the
earlier revision final.cpp agrees on everything embedded here except where
a comment notes a difference).

Conventions of the embedding:
  * C++ `int` quantities are modelled as `Int` (all claim scenarios stay far
    below the 2^31 overflow boundary; hypotheses keep products/sums there
    where an overflow would otherwise be reachable).
  * `std::unordered_map`/`std::map` keyed state is modelled as an association
    list processed with first-match semantics; iteration order of the C++
    maps is unspecified, and the embedding fixes insertion order.  No claim
    depends on map iteration order (different keys touch disjoint state).
  * Wall-clock time (`time(nullptr)`) is passed in explicitly as a `Nat`
    parameter wherever the source reads the clock (request/loan id
    generation, waiting-list timestamps).
  * I/O (cout, logger) and fields that no claim observes (category index,
    users, prices, due/return dates) are omitted.
  * throwing C++ functions are modelled with `Except String`.
-/

set_option linter.unusedVariables false

namespace GovBooks

/-- Priority of a book request; source enum `Priority` (LOW=1 .. CRITICAL=4). -/
inductive Priority where
  | LOW
  | MEDIUM
  | HIGH
  | CRITICAL
deriving DecidableEq, Repr

/-- Numeric value of a priority, as in `static_cast<int>(getPriority())`. -/
def Priority.toInt : Priority → Int
  | .LOW => 1
  | .MEDIUM => 2
  | .HIGH => 3
  | .CRITICAL => 4

/-- Source enum `RequestStatus`. -/
inductive RequestStatus where
  | PENDING
  | APPROVED
  | PARTIALLY_FULFILLED
  | FULFILLED
  | REJECTED
deriving DecidableEq, Repr

/-- Status test used by `Institution::getPendingRequests`. -/
def RequestStatus.isPending (s : RequestStatus) : Bool :=
  s = RequestStatus.PENDING || s = RequestStatus.PARTIALLY_FULFILLED

/-- Source class `Book`; only identity fields that claims can observe are kept
(category, publisher, price and the ISBN/year validation of the constructor are
not mentioned by any claim). -/
structure Book where
  isbn : String
  title : String
  author : String
deriving DecidableEq, Repr

/-- Source `Validator::isValidQuantity`: positive and below one million. -/
def Validator.isValidQuantity (qty : Int) : Bool :=
  0 < qty && qty < 1000000

/-- Source class `BookRequest`. -/
structure BookRequest where
  requestId : String
  isbn : String
  quantityRequested : Int
  quantityFulfilled : Int
  priority : Priority
  status : RequestStatus
deriving DecidableEq, Repr

/-- Source `BookRequest::getRemainingQuantity`. -/
def BookRequest.getRemainingQuantity (r : BookRequest) : Int :=
  r.quantityRequested - r.quantityFulfilled

/-- Source `BookRequest::fulfillPartial`: adds `qty` to the fulfilled count
unconditionally, then recomputes the status. -/
def BookRequest.fulfillPartial (r : BookRequest) (qty : Int) : BookRequest :=
  let f := r.quantityFulfilled + qty
  { r with
    quantityFulfilled := f
    status :=
      if r.quantityRequested ≤ f then RequestStatus.FULFILLED
      else if 0 < f then RequestStatus.PARTIALLY_FULFILLED
      else r.status }

/-- Transaction record of `BookInventory` (timestamp omitted: no claim reads it). -/
structure Transaction where
  isbn : String
  quantity : Int
  kind : String
deriving DecidableEq, Repr

/-- Stock ledger entry lookup (first match), modelling `stock.find(isbn)` on the
`unordered_map<string, pair<shared_ptr<Book>, int>>`. -/
def stockLookup : List (String × Book × Int) → String → Option (Book × Int)
  | [], _ => none
  | (k, b, q) :: rest, isbn => if k = isbn then some (b, q) else stockLookup rest isbn

/-- Update the quantity of the first entry with the given key, leaving the rest
unchanged (mutation of the mapped value in the C++ map). -/
def stockUpdate : List (String × Book × Int) → String → (Int → Int) → List (String × Book × Int)
  | [], _, _ => []
  | (k, b, q) :: rest, isbn, f =>
      if k = isbn then (k, b, f q) :: rest else (k, b, q) :: stockUpdate rest isbn f

/-- Source class `BookInventory` (category index omitted: only used for search,
which no claim mentions). -/
structure BookInventory where
  stock : List (String × Book × Int)
  transactionLog : List Transaction
deriving DecidableEq, Repr

def BookInventory.empty : BookInventory := ⟨[], []⟩

/-- Source `BookInventory::addBook`: rejects an invalid quantity
(`InvalidInputException`), merges into an existing entry or creates a new one,
and appends an ADD record. -/
def BookInventory.addBook (inv : BookInventory) (book : Book) (quantity : Int) :
    Except String BookInventory :=
  if !(Validator.isValidQuantity quantity) then
    Except.error ("Invalid quantity")
  else
    let stock :=
      match stockLookup inv.stock book.isbn with
      | some _ => stockUpdate inv.stock book.isbn (fun q => q + quantity)
      | none => inv.stock ++ [(book.isbn, book, quantity)]
    Except.ok
      { stock := stock
        transactionLog := inv.transactionLog ++ [⟨book.isbn, quantity, "ADD"⟩] }

/-- Source `BookInventory::allocateBooks`: validates the quantity, then checks
availability and decrements; returns success as a `Bool` (never throws). -/
def BookInventory.allocateBooks (inv : BookInventory) (isbn : String) (quantity : Int) :
    Bool × BookInventory :=
  if !(Validator.isValidQuantity quantity) then (false, inv)
  else
    match stockLookup inv.stock isbn with
    | none => (false, inv)
    | some (_, avail) =>
        if avail < quantity then (false, inv)
        else
          (true,
            { stock := stockUpdate inv.stock isbn (fun q => q - quantity)
              transactionLog := inv.transactionLog ++ [⟨isbn, quantity, "ALLOCATE"⟩] })

/-- Source `BookInventory::returnBooks`: credits the quantity back only when the
isbn already has a stock entry; silently does nothing otherwise.  There is no
quantity validation in this function. -/
def BookInventory.returnBooks (inv : BookInventory) (isbn : String) (quantity : Int) :
    BookInventory :=
  match stockLookup inv.stock isbn with
  | none => inv
  | some _ =>
      { stock := stockUpdate inv.stock isbn (fun q => q + quantity)
        transactionLog := inv.transactionLog ++ [⟨isbn, quantity, "RETURN"⟩] }

/-- Source `BookInventory::getAvailableQuantity`: 0 for an unknown isbn. -/
def BookInventory.getAvailableQuantity (inv : BookInventory) (isbn : String) : Int :=
  match stockLookup inv.stock isbn with
  | none => 0
  | some (_, q) => q

/-- Source `BookInventory::getBook`: `nullptr` for an unknown isbn becomes `none`. -/
def BookInventory.getBook (inv : BookInventory) (isbn : String) : Option Book :=
  match stockLookup inv.stock isbn with
  | none => none
  | some (b, _) => some b

/-- Total quantity ever added for an isbn, read off the ADD records of the
transaction log (the code's own record of "total added" used by claim C2). -/
def BookInventory.totalAdded (inv : BookInventory) (isbn : String) : Int :=
  inv.transactionLog.foldl
    (fun s tr => if tr.kind = "ADD" ∧ tr.isbn = isbn then s + tr.quantity else s) 0

/-- Source class `BookLoan`; issue/due/return dates are omitted (no claim reads
them), the returned flag is kept. -/
structure BookLoan where
  loanId : String
  isbn : String
  institutionId : String
  quantity : Int
  isReturned : Bool
deriving DecidableEq, Repr

/-- Source class `LoanManagement`. -/
structure LoanManagement where
  loans : List BookLoan
deriving DecidableEq, Repr

/-- Source `LoanManagement::issueBookLoan`; the loan id is
`"LOAN-" + instId + "-" + to_string(time(nullptr))`, with the clock passed in
as `t`. -/
def LoanManagement.issueBookLoan (lm : LoanManagement) (isbn instId : String)
    (quantity : Int) (t : Nat) : LoanManagement :=
  { loans := lm.loans ++ [⟨"LOAN-" ++ instId ++ "-" ++ toString t, isbn, instId, quantity, false⟩] }

/-- Mark the first not-yet-returned loan with the given id as returned;
returns whether one was found (the loop body of `LoanManagement::returnBooks`). -/
def markReturnedFirst : List BookLoan → String → Bool × List BookLoan
  | [], _ => (false, [])
  | loan :: rest, lid =>
      if loan.loanId = lid ∧ loan.isReturned = false then
        (true, { loan with isReturned := true } :: rest)
      else
        let (ok, rest') := markReturnedFirst rest lid
        (ok, loan :: rest')

/-- Source `LoanManagement::returnBooks`: true iff a loan with this id exists
and was not already returned; that loan is marked returned. -/
def LoanManagement.returnBooks (lm : LoanManagement) (loanId : String) :
    Bool × LoanManagement :=
  let (ok, loans) := markReturnedFirst lm.loans loanId
  (ok, { loans := loans })

/-- Source `LoanManagement::getLoansByInstitution`: loans whose institution id
equals the argument. -/
def LoanManagement.getLoansByInstitution (lm : LoanManagement) (instId : String) :
    List BookLoan :=
  lm.loans.filter (fun loan => loan.institutionId = instId)

/-- First loan with the given id in a list (the search loop of
`GovernmentBooksManagementSystem::returnBooks`). -/
def findLoanById (loans : List BookLoan) (loanId : String) : Option BookLoan :=
  loans.find? (fun loan => loan.loanId = loanId)

/-- Sum of the quantities of not-yet-returned loans on an isbn (the Σ of the
conservation property, claim C2). -/
def LoanManagement.outstandingFor (lm : LoanManagement) (isbn : String) : Int :=
  lm.loans.foldl
    (fun s loan => if loan.isbn = isbn ∧ loan.isReturned = false then s + loan.quantity else s) 0

/-- Source `WaitingList` entry (struct `WaitingEntry`). -/
structure WaitingEntry where
  institutionId : String
  isbn : String
  quantity : Int
  requestTime : Nat
  priority : Priority
deriving DecidableEq, Repr

/-- Push a value onto the queue of a key, creating the queue when absent
(`waitingQueues[isbn].push(...)` on the `map<string, queue<WaitingEntry>>`). -/
def queuePush : List (String × List WaitingEntry) → String → WaitingEntry →
    List (String × List WaitingEntry)
  | [], isbn, e => [(isbn, [e])]
  | (k, q) :: rest, isbn, e =>
      if k = isbn then (k, q ++ [e]) :: rest else (k, q) :: queuePush rest isbn e

/-- Source class `WaitingList`. -/
structure WaitingList where
  waitingQueues : List (String × List WaitingEntry)
deriving DecidableEq, Repr

/-- Source `WaitingList::addToWaitingList`. -/
def WaitingList.addToWaitingList (wl : WaitingList) (isbn instId : String)
    (quantity : Int) (priority : Priority) (t : Nat) : WaitingList :=
  { waitingQueues := queuePush wl.waitingQueues isbn ⟨instId, isbn, quantity, t, priority⟩ }

/-- Source `WaitingList::getWaitingCount`: queue length, 0 for an unknown isbn. -/
def WaitingList.getWaitingCount (wl : WaitingList) (isbn : String) : Int :=
  match wl.waitingQueues.find? (fun p => p.1 = isbn) with
  | none => 0
  | some (_, q) => (q.length : Int)

/-- Update the value of the first entry with the given key of an association
list of `Int` counters, inserting the key with value `d` applied to 0 when
absent (`unordered_map<string,int>::operator[] +=`). -/
def bumpAssoc : List (String × Int) → String → Int → List (String × Int)
  | [], k, d => [(k, d)]
  | (k', v) :: rest, k, d =>
      if k' = k then (k', v + d) :: rest else (k', v) :: bumpAssoc rest k d

/-- Source class `Institution`; identity fields other than the id (name, type,
location, student count) are omitted as no claim observes them. -/
structure Institution where
  institutionId : String
  currentBooks : List (String × Int)
  requests : List BookRequest
deriving DecidableEq, Repr

/-- Source `Institution::addRequest`. -/
def Institution.addRequest (inst : Institution) (req : BookRequest) : Institution :=
  { inst with requests := inst.requests ++ [req] }

/-- Source `Institution::receiveBooks`. -/
def Institution.receiveBooks (inst : Institution) (isbn : String) (quantity : Int) :
    Institution :=
  { inst with currentBooks := bumpAssoc inst.currentBooks isbn quantity }

/-- Source `Institution::getPendingRequests`. -/
def Institution.getPendingRequests (inst : Institution) : List BookRequest :=
  inst.requests.filter (fun req => req.status.isPending)

/-- Apply `f` to the element at index `n` of a list, if any. -/
def modifyAt : List α → Nat → (α → α) → List α
  | [], _, _ => []
  | a :: as, 0, f => f a :: as
  | a :: as, n + 1, f => a :: modifyAt as n f

/-- Mutable state threaded through one `distribute` call: the inventory, the
institution list and the loan manager (the three reference parameters of
`IDistributionStrategy::distribute`). -/
structure DistState where
  inv : BookInventory
  insts : List Institution
  lm : LoanManagement
deriving DecidableEq, Repr

/-- Request shared-pointer dereference: the request at position `r` of the
institution at position `i`. -/
def DistState.getReq (st : DistState) (i r : Nat) : Option BookRequest :=
  match st.insts[i]? with
  | none => none
  | some inst => inst.requests[r]?

/-- In-place mutation through the request shared pointer. -/
def DistState.setReq (st : DistState) (i r : Nat) (f : BookRequest → BookRequest) :
    DistState :=
  { st with
    insts := modifyAt st.insts i (fun inst => { inst with requests := modifyAt inst.requests r f }) }

/-- In-place mutation through the institution shared pointer. -/
def DistState.setInst (st : DistState) (i : Nat) (f : Institution → Institution) : DistState :=
  { st with insts := modifyAt st.insts i f }

/-- Pool items of `PriorityBasedDistribution::distribute`: for each institution
(at index `i`, counting from the accumulator), each pending request (at index
`r`) together with the remaining-quantity snapshot taken when it is pushed and
its priority (read by the queue comparator).  This visits institutions and
requests in the same order as the C++ loops. -/
def reqTriples (i : Nat) : Nat → List BookRequest → List (Nat × Nat × Int × Priority)
  | _, [] => []
  | r, req :: rest =>
      (if req.status.isPending then [(i, r, req.getRemainingQuantity, req.priority)] else []) ++
        reqTriples i (r + 1) rest

/-- Collection loop over all institutions for the priority pool. -/
def pendingTriples : Nat → List Institution → List (Nat × Nat × Int × Priority)
  | _, [] => []
  | i, inst :: rest => reqTriples i 0 inst.requests ++ pendingTriples (i + 1) rest

/-- Pop order of the priority queue: descending `Priority` value.  The C++
`std::priority_queue` guarantees exactly this order between different
priorities; the relative order of equal priorities is heap order, which the
design leaves unspecified, and the embedding fixes one admissible order. -/
def prioGE (a b : Nat × Nat × Int × Priority) : Prop :=
  b.2.2.2.toInt ≤ a.2.2.2.toInt

instance : DecidableRel prioGE := fun a b => by
  unfold prioGE; infer_instance

/-- Body of the `while (!pq.empty())` loop of
`PriorityBasedDistribution::distribute`: re-reads availability, allocates
`min(needed, available)` and on success credits the institution, advances the
request and issues a loan. -/
def prioStep (t : Nat) (st : DistState) (item : Nat × Nat × Int × Priority) : DistState :=
  match item with
  | (i, r, needed, _) =>
      match st.insts[i]? with
      | none => st
      | some inst =>
          match inst.requests[r]? with
          | none => st
          | some req =>
              let available := st.inv.getAvailableQuantity req.isbn
              if available ≤ 0 then st
              else
                let alloc := min needed available
                let res := st.inv.allocateBooks req.isbn alloc
                if res.1 then
                  let st := { st with inv := res.2 }
                  let st := st.setInst i (fun inst => inst.receiveBooks req.isbn alloc)
                  let st := st.setReq i r (fun req => req.fulfillPartial alloc)
                  { st with lm := st.lm.issueBookLoan req.isbn inst.institutionId alloc t }
                else st

/-- Source `PriorityBasedDistribution::distribute`. -/
def priorityBasedDistribute (t : Nat) (st : DistState) : DistState :=
  (List.insertionSort prioGE (pendingTriples 0 st.insts)).foldl (prioStep t) st

/-- Grouping step of the `map<string, vector<...>>` builders of the need-based
and equal strategies: append the payload to the vector of its key, creating the
key on first sight. -/
def insertGrouped : List (String × List β) → String → β → List (String × List β)
  | [], k, v => [(k, [v])]
  | (k', vs) :: rest, k, v =>
      if k' = k then (k', vs ++ [v]) :: rest else (k', vs) :: insertGrouped rest k v

/-- Per-institution collection loop of `NeedBasedDistribution::distribute`
(and, with the payload ignored by the steps, of `EqualDistribution`): every
pending request with positive remaining quantity, tagged with its isbn. -/
def needyReqItems (i : Nat) : Nat → List BookRequest → List (String × Nat × Nat × Int)
  | _, [] => []
  | r, req :: rest =>
      (if req.status.isPending && 0 < req.getRemainingQuantity then
        [(req.isbn, i, r, req.getRemainingQuantity)]
      else []) ++ needyReqItems i (r + 1) rest

/-- Collection loop over all institutions for the need/equal strategies.  The
C++ `std::map` iterates keys in lexicographic order; the embedding keeps
first-encounter order, which is immaterial because different keys touch
disjoint stock entries and disjoint requests. -/
def needyItems (i : Nat) : List Institution → List (String × Nat × Nat × Int)
  | [] => []
  | inst :: rest => needyReqItems i 0 inst.requests ++ needyItems (i + 1) rest

/-- The grouped need map (`needMap` / `needingMap`). -/
def buildNeedMap (insts : List Institution) : List (String × List (Nat × Nat × Int)) :=
  (needyItems 0 insts).foldl (fun m kv => insertGrouped m kv.1 kv.2) []

/-- Inner loop body of `NeedBasedDistribution::distribute` for one isbn:
`allocate = min(need, (available * need) / totalNeed)` with the availability
snapshot `available` taken before the loop, then the guarded allocation. -/
def needStep (t : Nat) (isbn : String) (available totalNeed : Int)
    (st : DistState) (item : Nat × Nat × Int) : DistState :=
  match item with
  | (i, r, need) =>
      let alloc := if 0 < totalNeed then min need ((available * need).tdiv totalNeed) else 0
      if 0 < alloc then
        let res := st.inv.allocateBooks isbn alloc
        if res.1 then
          match st.insts[i]? with
          | none => st
          | some inst =>
              let st := { st with inv := res.2 }
              let st := st.setInst i (fun inst => inst.receiveBooks isbn alloc)
              let st := st.setReq i r (fun req => req.fulfillPartial alloc)
              { st with lm := st.lm.issueBookLoan isbn inst.institutionId alloc t }
        else st
      else st

/-- Per-isbn body of `NeedBasedDistribution::distribute`. -/
def needIsbn (t : Nat) (st : DistState) (grp : String × List (Nat × Nat × Int)) : DistState :=
  let available := st.inv.getAvailableQuantity grp.1
  if available ≤ 0 then st
  else
    let totalNeed := grp.2.foldl (fun s x => s + x.2.2) 0
    grp.2.foldl (needStep t grp.1 available totalNeed) st

/-- Source `NeedBasedDistribution::distribute`. -/
def needBasedDistribute (t : Nat) (st : DistState) : DistState :=
  (buildNeedMap st.insts).foldl (needIsbn t) st

/-- Inner loop body of `EqualDistribution::distribute` for one isbn:
`allocate = min(perInst, remaining)` with the remaining quantity re-read live. -/
def equalStep (t : Nat) (isbn : String) (perInst : Int)
    (st : DistState) (item : Nat × Nat × Int) : DistState :=
  match item with
  | (i, r, _) =>
      match st.insts[i]? with
      | none => st
      | some inst =>
          match inst.requests[r]? with
          | none => st
          | some req =>
              let alloc := min perInst req.getRemainingQuantity
              if 0 < alloc then
                let res := st.inv.allocateBooks isbn alloc
                if res.1 then
                  let st := { st with inv := res.2 }
                  let st := st.setInst i (fun inst => inst.receiveBooks isbn alloc)
                  let st := st.setReq i r (fun req => req.fulfillPartial alloc)
                  { st with lm := st.lm.issueBookLoan isbn inst.institutionId alloc t }
                else st
              else st

/-- Per-isbn body of `EqualDistribution::distribute`: `perInst` is the integer
share `available / needList.size()` (both positive here, so C++ mixed
`int`/`size_t` division agrees with truncating division). -/
def equalIsbn (t : Nat) (st : DistState) (grp : String × List (Nat × Nat × Int)) : DistState :=
  let available := st.inv.getAvailableQuantity grp.1
  if available ≤ 0 || grp.2.isEmpty then st
  else
    let perInst := available.tdiv (grp.2.length : Int)
    if perInst ≤ 0 then st
    else grp.2.foldl (equalStep t grp.1 perInst) st

/-- Source `EqualDistribution::distribute` (complete-edition revision; the
`needingMap` there stores one entry per pending request with positive
remaining quantity, exactly `buildNeedMap`). -/
def equalDistribute (t : Nat) (st : DistState) : DistState :=
  (buildNeedMap st.insts).foldl (equalIsbn t) st

/-- The closed set of strategies installable through `setDistributionStrategy`. -/
inductive StrategyKind where
  | priorityBased
  | needBased
  | equal
deriving DecidableEq, Repr

/-- Source class `GovernmentBooksManagementSystem` (users/authentication
omitted: no claim observes them). -/
structure SystemState where
  centralInventory : BookInventory
  institutions : List Institution
  strategy : StrategyKind
  loanManager : LoanManagement
  waitingList : WaitingList
deriving DecidableEq, Repr

/-- Source `GovernmentBooksManagementSystem::getInstitution`. -/
def SystemState.getInstitution (s : SystemState) (id : String) : Option Institution :=
  s.institutions.find? (fun inst => inst.institutionId = id)

/-- Source `registerInstitution`: `institutions[id] = inst` replaces an entry
with the same id or inserts a new one. -/
def SystemState.registerInstitution (s : SystemState) (inst : Institution) : SystemState :=
  { s with
    institutions :=
      if (s.institutions.find? (fun j => j.institutionId = inst.institutionId)).isSome then
        s.institutions.map (fun j => if j.institutionId = inst.institutionId then inst else j)
      else s.institutions ++ [inst] }

/-- Source `addBookToInventory` (delegates to the inventory). -/
def SystemState.addBookToInventory (s : SystemState) (book : Book) (quantity : Int) :
    Except String SystemState :=
  match s.centralInventory.addBook book quantity with
  | Except.error e => Except.error e
  | Except.ok inv => Except.ok { s with centralInventory := inv }

/-- Update the first institution with the given id. -/
def updateInstById (insts : List Institution) (id : String) (f : Institution → Institution) :
    List Institution :=
  match insts with
  | [] => []
  | inst :: rest =>
      if inst.institutionId = id then f inst :: rest
      else inst :: updateInstById rest id f

/-- Source `GovernmentBooksManagementSystem::submitBookRequest`: throws
NotFound for an unknown institution or isbn; otherwise appends the new PENDING
request and, when the requested quantity exceeds the currently available
stock, also appends a waiting-list entry. -/
def SystemState.submitBookRequest (s : SystemState) (instId isbn : String)
    (quantity : Int) (priority : Priority) (t : Nat) : Except String SystemState :=
  match s.getInstitution instId with
  | none => Except.error ("Institution: " ++ instId)
  | some _ =>
      match s.centralInventory.getBook isbn with
      | none => Except.error ("Book ISBN: " ++ isbn)
      | some _ =>
          let reqId := "REQ-" ++ instId ++ "-" ++ toString t
          let req : BookRequest := ⟨reqId, isbn, quantity, 0, priority, RequestStatus.PENDING⟩
          let s := { s with
            institutions := updateInstById s.institutions instId (fun inst => inst.addRequest req) }
          if s.centralInventory.getAvailableQuantity isbn < quantity then
            Except.ok
              { s with waitingList := s.waitingList.addToWaitingList isbn instId quantity priority t }
          else Except.ok s

/-- Source `GovernmentBooksManagementSystem::executeDistribution`: runs the
active strategy over the inventory, the institution list and the loan manager.
The waiting list is not mentioned anywhere in this function. -/
def SystemState.executeDistribution (s : SystemState) (t : Nat) : SystemState :=
  let st : DistState := ⟨s.centralInventory, s.institutions, s.loanManager⟩
  let st :=
    match s.strategy with
    | StrategyKind.priorityBased => priorityBasedDistribute t st
    | StrategyKind.needBased => needBasedDistribute t st
    | StrategyKind.equal => equalDistribute t st
  { s with centralInventory := st.inv, institutions := st.insts, loanManager := st.lm }

/-- Source `GovernmentBooksManagementSystem::setDistributionStrategy`. -/
def SystemState.setDistributionStrategy (s : SystemState) (k : StrategyKind) : SystemState :=
  { s with strategy := k }

/-- Source `GovernmentBooksManagementSystem::returnBooks`: asks the loan
manager to mark the loan returned; on success it searches for the loan object
among `getLoansByInstitution("")` — the loans whose institution id is the
empty string — and only if found there credits the inventory. -/
def SystemState.returnBooks (s : SystemState) (loanId : String) : SystemState :=
  let res := s.loanManager.returnBooks loanId
  if res.1 then
    let s := { s with loanManager := res.2 }
    match findLoanById (res.2.getLoansByInstitution "") loanId with
    | some loan =>
        { s with centralInventory := s.centralInventory.returnBooks loan.isbn loan.quantity }
    | none => s
  else { s with loanManager := res.2 }

/-- Run an `Except`-returning operation, keeping the fallback state when it
throws (used only to chain concrete scenarios). -/
def okOr (d : SystemState) : Except String SystemState → SystemState
  | Except.ok s => s
  | Except.error _ => d

/-- Chain an inventory `addBook`, keeping the old inventory when it throws
(used only to build concrete scenarios). -/
def addOr (inv : BookInventory) (book : Book) (quantity : Int) : BookInventory :=
  match inv.addBook book quantity with
  | Except.ok i => i
  | Except.error _ => inv

/-- Invariant of claim C4 over every request held by any institution. -/
def RequestsLE (insts : List Institution) : Prop :=
  ∀ inst ∈ insts, ∀ req ∈ inst.requests, req.quantityFulfilled ≤ req.quantityRequested

instance (insts : List Institution) : Decidable (RequestsLE insts) := by
  unfold RequestsLE; infer_instance

/-- Proportional share formula of the need-based strategy:
`min(remaining, floor(A * remaining / T))` with C++ truncating division.
Claim C7 applies it per institution; the code applies it per pending request. -/
def propShare (A T n : Int) : Int := min n ((A * n).tdiv T)

/-- Share formula of the equal strategy: `min(remaining, floor(A / k))`.
Claim C8 takes `k` to be the number of distinct institutions with outstanding
need; the code takes `k` to be the number of pending requests with positive
remaining quantity. -/
def equalShare (A k n : Int) : Int := min n (A.tdiv k)

/-- A book whose isbn passes `Validator::isValidISBN` (10 digits). -/
def demoBook : Book := ⟨"1234567890", "Mathematics Grade 10", "Dr. A. Kumar"⟩

/-- Fresh system with the given strategy installed. -/
def sysEmpty (k : StrategyKind) : SystemState :=
  ⟨BookInventory.empty, [], k, ⟨[]⟩, ⟨[]⟩⟩

/-- Scenario of claims C1/C2: stock 100 of one isbn, institution I1 requests
60 at CRITICAL, institution I2 requests 60 at LOW, one priority-based cycle.
Afterwards the loan LOAN-I1-3 (60 copies) is live and the stock is 0. -/
def returnScenario : SystemState :=
  let s := sysEmpty StrategyKind.priorityBased
  let s := okOr s (s.addBookToInventory demoBook 100)
  let s := s.registerInstitution ⟨"I1", [], []⟩
  let s := s.registerInstitution ⟨"I2", [], []⟩
  let s := okOr s (s.submitBookRequest "I1" "1234567890" 60 Priority.CRITICAL 1)
  let s := okOr s (s.submitBookRequest "I2" "1234567890" 60 Priority.LOW 2)
  s.executeDistribution 3

/-- State of claims C1/C2 after returning loan LOAN-I1-3. -/
def returnedScenario : SystemState := returnScenario.returnBooks "LOAN-I1-3"

/-- Inventory with exactly 1000000 available copies of the demo book
(two merged adds of 500000; a single add of 1000000 would be rejected). -/
def invMillion : BookInventory :=
  addOr (addOr BookInventory.empty demoBook 500000) demoBook 500000

/-- Inventory with 10 available copies of the demo book. -/
def invTen : BookInventory := addOr BookInventory.empty demoBook 10

/-- Scenario of the C7 counterexample: stock 10; institution X holds two
pending requests of 5 copies each, institution Y one request of 10 copies,
all on the same isbn; one need-based cycle. -/
def needCx : SystemState :=
  let s := sysEmpty StrategyKind.needBased
  let s := okOr s (s.addBookToInventory demoBook 10)
  let s := s.registerInstitution ⟨"X", [], []⟩
  let s := s.registerInstitution ⟨"Y", [], []⟩
  let s := okOr s (s.submitBookRequest "X" "1234567890" 5 Priority.MEDIUM 1)
  let s := okOr s (s.submitBookRequest "X" "1234567890" 5 Priority.MEDIUM 2)
  let s := okOr s (s.submitBookRequest "Y" "1234567890" 10 Priority.MEDIUM 3)
  s.executeDistribution 4

/-- Scenario of the C8 counterexample: stock 30; institution X holds two
pending requests of 100 copies each, institution Y one request of 100 copies,
all on the same isbn; one equal-distribution cycle. -/
def equalCx : SystemState :=
  let s := sysEmpty StrategyKind.equal
  let s := okOr s (s.addBookToInventory demoBook 30)
  let s := s.registerInstitution ⟨"X", [], []⟩
  let s := s.registerInstitution ⟨"Y", [], []⟩
  let s := okOr s (s.submitBookRequest "X" "1234567890" 100 Priority.MEDIUM 1)
  let s := okOr s (s.submitBookRequest "X" "1234567890" 100 Priority.MEDIUM 2)
  let s := okOr s (s.submitBookRequest "Y" "1234567890" 100 Priority.MEDIUM 3)
  s.executeDistribution 4

/-- Fresh PENDING scenario request with the given identity, isbn, quantity and
priority. -/
def pendingReq (id B : String) (q : Int) (p : Priority) : BookRequest :=
  ⟨id, B, q, 0, p, RequestStatus.PENDING⟩

/-- Distribution state of claim C3: one stock entry of `S` copies of isbn `B`,
institution IA with the single pending request RA (qty `qA`, priority `pA`),
institution IB with the single pending request RB (qty `qB`, priority `pB`). -/
def twoReqState (B : String) (bk : Book) (S qA qB : Int) (pA pB : Priority) : DistState :=
  ⟨⟨[(B, bk, S)], []⟩,
   [⟨"IA", [], [pendingReq "RA" B qA pA]⟩, ⟨"IB", [], [pendingReq "RB" B qB pB]⟩],
   ⟨[]⟩⟩

/-- Scenario institutions of claims C7/C8: for each `(id, needs)` pair an
institution holding one fresh PENDING request per need, all on isbn `B`. -/
def scnInsts (B : String) (specs : List (String × List Int)) : List Institution :=
  specs.map (fun p =>
    ⟨p.1, [], p.2.map (fun n => pendingReq "" B n Priority.MEDIUM)⟩)

/-- Distribution state of claims C7/C8: one stock entry of `A` copies of `B`
and the scenario institutions. -/
def scnState (B : String) (bk : Book) (specs : List (String × List Int)) (A : Int) : DistState :=
  ⟨⟨[(B, bk, A)], []⟩, scnInsts B specs, ⟨[]⟩⟩

/-- All requested quantities of a C7/C8 scenario, in request order. -/
def scnNeeds (specs : List (String × List Int)) : List Int :=
  (specs.map Prod.snd).flatten

/-- Request of the C4 counterexample: 1 copy requested, none fulfilled. -/
def overReq : BookRequest := ⟨"R1", "1234567890", 1, 0, Priority.LOW, RequestStatus.PENDING⟩

/-- Per-request invariant of claim C4, read through the request index maps of a
distribution state. -/
def ReqLEAt (st : DistState) : Prop :=
  ∀ i r req, st.getReq i r = some req →
    req.quantityFulfilled ≤ req.quantityRequested

/-- Snapshot soundness: a remaining-quantity snapshot taken for request
`(i, r)` is at most that request's current remaining quantity. -/
def SnapOk (st : DistState) (i r : Nat) (needed : Int) : Prop :=
  ∀ req, st.getReq i r = some req → needed ≤ req.getRemainingQuantity

/-- Expected collection result on a C7/C8 scenario institution: one item per
request, all on isbn `B`, with consecutive request indices. -/
def triplesOf (B : String) (i : Nat) : Nat → List Int → List (String × Nat × Nat × Int)
  | _, [] => []
  | r, n :: rest => (B, i, r, n) :: triplesOf B i (r + 1) rest

/-- Expected collection result on a whole C7/C8 scenario. -/
def scnTriples (B : String) : Nat → List (String × List Int) → List (String × Nat × Nat × Int)
  | _, [] => []
  | i, p :: rest => triplesOf B i 0 p.2 ++ scnTriples B (i + 1) rest

/-- Base system of the C9 witness: 100 copies of the demo book, institution I1
registered, no requests yet. -/
def wlBase : SystemState :=
  let s := sysEmpty StrategyKind.priorityBased
  let s := okOr s (s.addBookToInventory demoBook 100)
  s.registerInstitution ⟨"I1", [], []⟩

/-- System of the C9 witness after I1 requests 150 copies (more than the 100
available), which appends a waiting-list entry. -/
def wlAfter : SystemState :=
  okOr wlBase (wlBase.submitBookRequest "I1" "1234567890" 150 Priority.HIGH 7)

/-- Looking up a key after updating that key transforms exactly its quantity. -/
theorem stockLookup_stockUpdate_self (s : List (String × Book × Int)) (isbn : String)
    (f : Int → Int) :
    stockLookup (stockUpdate s isbn f) isbn =
      (stockLookup s isbn).map (fun bq => (bq.1, f bq.2)) := by
  induction s with
  | nil => rfl
  | cons e rest ih =>
    obtain ⟨k, b, q⟩ := e
    by_cases h : k = isbn
    · simp [stockUpdate, stockLookup, h]
    · simp [stockUpdate, stockLookup, h, ih]

/-- Looking up a different key after an update is unchanged. -/
theorem stockLookup_stockUpdate_other (s : List (String × Book × Int)) (isbn isbn' : String)
    (f : Int → Int) (h : isbn' ≠ isbn) :
    stockLookup (stockUpdate s isbn f) isbn' = stockLookup s isbn' := by
  induction s with
  | nil => rfl
  | cons e rest ih =>
    obtain ⟨k, b, q⟩ := e
    by_cases hk : k = isbn
    · subst hk
      have hki : ¬k = isbn' := fun hh => h hh.symm
      simp [stockUpdate, stockLookup, hki]
    · by_cases hk' : k = isbn'
      · subst hk'
        simp [stockUpdate, stockLookup, hk]
      · simp [stockUpdate, stockLookup, hk, hk', ih]

/-- Quantity validation holds for positive quantities below one million. -/
theorem isValidQuantity_eq_true {q : Int} (h1 : 0 < q) (h2 : q < 1000000) :
    Validator.isValidQuantity q = true := by
  simp only [Validator.isValidQuantity, Bool.and_eq_true, decide_eq_true_eq]
  exact ⟨h1, h2⟩

/-- Claim C1 (code bug): in the end-to-end scenario the loan LOAN-I1-3 exists,
is for 60 copies of isbn 1234567890 and is not yet returned, and stock is 0;
`returnBooks` on it marks the loan returned (so a second call would fail) but
the available quantity stays 0 instead of increasing by the loan quantity 60 —
the inventory credit is unreachable because the code searches for the loan
among `getLoansByInstitution("")`. -/
theorem claim1_returnLoan_never_credits_stock :
    (findLoanById returnScenario.loanManager.loans "LOAN-I1-3").map
        (fun l => (l.isReturned, l.quantity, l.isbn)) = some (false, 60, "1234567890")
    ∧ returnScenario.centralInventory.getAvailableQuantity "1234567890" = 0
    ∧ returnedScenario.loanManager.loans.map (fun l => (l.loanId, l.isReturned)) =
        [("LOAN-I1-3", true), ("LOAN-I2-3", false)]
    ∧ returnedScenario.centralInventory.getAvailableQuantity "1234567890" = 0 := by
  decide

/-- Claim C2 (code bug): conservation `total added = available + outstanding`
holds right after the distribution cycle (100 = 0 + 100) but is violated once
a loan is returned, because `returnBooks` marks the loan returned without
crediting the stock: afterwards total added is 100 while available (0) plus
outstanding (40) is 40. -/
theorem claim2_conservation_broken_by_returnLoan :
    returnScenario.centralInventory.totalAdded "1234567890" =
      returnScenario.centralInventory.getAvailableQuantity "1234567890" +
        returnScenario.loanManager.outstandingFor "1234567890"
    ∧ returnedScenario.centralInventory.totalAdded "1234567890" = 100
    ∧ returnedScenario.centralInventory.getAvailableQuantity "1234567890" = 0
    ∧ returnedScenario.loanManager.outstandingFor "1234567890" = 40
    ∧ returnedScenario.centralInventory.totalAdded "1234567890" ≠
        returnedScenario.centralInventory.getAvailableQuantity "1234567890" +
          returnedScenario.loanManager.outstandingFor "1234567890" := by
  decide

/-- Claim C4 counterexample: `fulfillPartial` with the nonnegative quantity 2
on a request of quantity 1 drives fulfilled (2) above requested (1), so the
invariant does not survive `fulfillPartial` with arbitrary `qty ≥ 0`. -/
theorem claim4_counterexample :
    (0 : Int) ≤ 2
    ∧ (overReq.fulfillPartial 2).quantityRequested = 1
    ∧ (overReq.fulfillPartial 2).quantityFulfilled = 2
    ∧ ¬ ((overReq.fulfillPartial 2).quantityFulfilled ≤
          (overReq.fulfillPartial 2).quantityRequested) := by
  decide

/-- Claim C5 counterexample: with 1000000 copies available, `allocateBooks`
with qty = 1000000 (> 0 and ≤ available) still fails, because the source
additionally requires `qty < 1000000` via `Validator::isValidQuantity`. -/
theorem claim5_counterexample :
    invMillion.getAvailableQuantity "1234567890" = 1000000
    ∧ (invMillion.allocateBooks "1234567890" 1000000).1 = false
    ∧ (invMillion.allocateBooks "1234567890" 1000000).2 = invMillion := by
  decide

/-- Claim C5 (amended): for `0 < qty < 1000000`, `allocateBooks` succeeds iff
`qty ≤ available`; on success it decrements the available quantity by exactly
`qty`, and on failure it returns the inventory unchanged (it is a total
function returning a flag, never an exception). -/
theorem claim5_allocate_spec_amended (inv : BookInventory) (isbn : String) (qty : Int)
    (h1 : 0 < qty) (h2 : qty < 1000000) :
    ((inv.allocateBooks isbn qty).1 = true ↔ qty ≤ inv.getAvailableQuantity isbn)
    ∧ ((inv.allocateBooks isbn qty).1 = true →
        (inv.allocateBooks isbn qty).2.getAvailableQuantity isbn =
          inv.getAvailableQuantity isbn - qty)
    ∧ ((inv.allocateBooks isbn qty).1 = false → (inv.allocateBooks isbn qty).2 = inv) := by
  have hv := isValidQuantity_eq_true h1 h2
  unfold BookInventory.allocateBooks
  rw [hv]
  simp only [Bool.not_true, Bool.false_eq_true, if_false]
  cases hls : stockLookup inv.stock isbn with
  | none =>
    refine ⟨⟨fun h => by simp at h, fun h => ?_⟩, fun h => by simp at h, fun _ => rfl⟩
    exact absurd h (by simp [BookInventory.getAvailableQuantity, hls]; omega)
  | some bq =>
    obtain ⟨b, avail⟩ := bq
    dsimp only
    by_cases hlt : avail < qty
    · rw [if_pos hlt]
      refine ⟨⟨fun h => by simp at h, fun h => ?_⟩, fun h => by simp at h, fun _ => rfl⟩
      simp only [BookInventory.getAvailableQuantity, hls] at h
      omega
    · rw [if_neg hlt]
      refine ⟨⟨fun _ => ?_, fun _ => rfl⟩, fun _ => ?_, fun h => by simp at h⟩
      · simp only [BookInventory.getAvailableQuantity, hls]
        omega
      · simp [BookInventory.getAvailableQuantity, stockLookup_stockUpdate_self, hls]

/-- Claim C5 amended witness at a concrete input: 10 copies available,
allocating 3 succeeds and leaves 7. -/
theorem claim5_witness :
    ((0 : Int) < 3 ∧ (3 : Int) < 1000000)
    ∧ ((invTen.allocateBooks "1234567890" 3).1 = true ↔
        3 ≤ invTen.getAvailableQuantity "1234567890")
    ∧ ((invTen.allocateBooks "1234567890" 3).1 = true →
        (invTen.allocateBooks "1234567890" 3).2.getAvailableQuantity "1234567890" =
          invTen.getAvailableQuantity "1234567890" - 3)
    ∧ ((invTen.allocateBooks "1234567890" 3).1 = false →
        (invTen.allocateBooks "1234567890" 3).2 = invTen) := by
  refine ⟨by decide, ?_⟩
  exact claim5_allocate_spec_amended invTen "1234567890" 3 (by decide) (by decide)

/-- Claim C6 counterexample: `returnBooks` on an isbn that was never added is
a no-op (the source only credits when the isbn already has a stock entry), so
the available quantity does not increase by `qty` for unknown ids. -/
theorem claim6_counterexample :
    (BookInventory.empty.returnBooks "1234567890" 5).getAvailableQuantity "1234567890" ≠
      BookInventory.empty.getAvailableQuantity "1234567890" + 5
    ∧ BookInventory.empty.returnBooks "1234567890" 5 = BookInventory.empty := by
  decide

/-- Claim C6 (amended): for an isbn that has a stock entry, `returnBooks`
credits any `qty > 0` unconditionally (no ceiling); for an isbn without a
stock entry it does nothing. -/
theorem claim6_returnStock_spec_amended (inv : BookInventory) (isbn : String) (qty : Int)
    (h : 0 < qty) :
    ((stockLookup inv.stock isbn).isSome →
        (inv.returnBooks isbn qty).getAvailableQuantity isbn =
          inv.getAvailableQuantity isbn + qty)
    ∧ (stockLookup inv.stock isbn = none → inv.returnBooks isbn qty = inv) := by
  constructor
  · intro hsome
    cases hls : stockLookup inv.stock isbn with
    | none => rw [hls] at hsome; simp at hsome
    | some bq =>
      rw [BookInventory.returnBooks, hls, BookInventory.getAvailableQuantity,
        BookInventory.getAvailableQuantity, hls]
      simp [stockLookup_stockUpdate_self, hls]
  · intro hnone
    rw [BookInventory.returnBooks, hnone]

/-- Claim C6 amended witness at a concrete input: 10 copies available, a
return of 4 makes 14; an unknown isbn stays untouched. -/
theorem claim6_witness :
    (0 : Int) < 4
    ∧ (stockLookup invTen.stock "1234567890").isSome = true
    ∧ (invTen.returnBooks "1234567890" 4).getAvailableQuantity "1234567890" =
        invTen.getAvailableQuantity "1234567890" + 4 := by
  refine ⟨by decide, by decide, ?_⟩
  exact (claim6_returnStock_spec_amended invTen "1234567890" 4 (by decide)).1 (by decide)

/-- Claim C7 counterexample: stock 10, institution X holds two pending
requests of 5 each (remaining 10 in total), institution Y one request of 10;
total need T = 20.  The claim's per-institution formula gives X
`min(10, floor(10*10/20)) = 5`, but the code applies the formula per request
and X receives only `2 + 2 = 4` (its two requests end at fulfilled 2 each). -/
theorem claim7_counterexample :
    needCx.institutions.map (fun i => i.requests.map (fun r => r.quantityFulfilled)) =
      [[2, 2], [5]]
    ∧ propShare 10 20 10 = 5
    ∧ (needCx.getInstitution "X").map (fun i => i.currentBooks) = some [("1234567890", 4)]
    ∧ (4 : Int) ≠ propShare 10 20 10 := by
  decide

/-- Claim C8 counterexample: stock 30, institution X holds two pending
requests of 100 each, institution Y one request of 100.  The claim's k
(distinct institutions) is 2, so Y should receive `min(100, floor(30/2)) = 15`;
the code counts pending requests (k = 3, perInst = 10) and Y receives 10. -/
theorem claim8_counterexample :
    equalCx.institutions.map (fun i => i.requests.map (fun r => r.quantityFulfilled)) =
      [[10, 10], [10]]
    ∧ equalShare 30 2 100 = 15
    ∧ (equalCx.getInstitution "Y").map (fun i => i.currentBooks) = some [("1234567890", 10)]
    ∧ (10 : Int) ≠ equalShare 30 2 100 := by
  decide

/-- Claim C10: reads on an isbn with no stock entry are total and return empty
defaults — available quantity 0, no book, and `allocateBooks` fails for every
quantity while leaving the inventory untouched. -/
theorem claim10_unknown_id_defaults (inv : BookInventory) (isbn : String)
    (h : stockLookup inv.stock isbn = none) :
    inv.getAvailableQuantity isbn = 0
    ∧ inv.getBook isbn = none
    ∧ ∀ qty : Int, inv.allocateBooks isbn qty = (false, inv) := by
  refine ⟨by rw [BookInventory.getAvailableQuantity, h], by rw [BookInventory.getBook, h], ?_⟩
  intro qty
  rw [BookInventory.allocateBooks]
  cases hv : Validator.isValidQuantity qty with
  | false => simp
  | true => simp [h]

/-- Claim C10 witness at a concrete input: the inventory holding only the demo
book returns the empty defaults for the isbn 0000000000. -/
theorem claim10_witness :
    stockLookup invTen.stock "0000000000" = none
    ∧ invTen.getAvailableQuantity "0000000000" = 0
    ∧ invTen.getBook "0000000000" = none
    ∧ invTen.allocateBooks "0000000000" 7 = (false, invTen) := by
  have h : stockLookup invTen.stock "0000000000" = none := by decide
  have hc := claim10_unknown_id_defaults invTen "0000000000" h
  exact ⟨h, hc.1, hc.2.1, hc.2.2 7⟩

/-- Claim C9: the waiting list is purely observational.  A successful
`submitBookRequest` appends one waiting entry exactly when the requested
quantity exceeds the currently available stock of that isbn (and otherwise
leaves the waiting list untouched), while `executeDistribution` never changes
the waiting list at all — in particular `getWaitingCount` is identical before
and after a cycle for every isbn, under every strategy. -/
theorem claim9_waitingList_observational :
    (∀ (s s' : SystemState) (instId isbn : String) (qty : Int) (prio : Priority) (t : Nat),
        s.submitBookRequest instId isbn qty prio t = Except.ok s' →
        s'.waitingList =
          (if s.centralInventory.getAvailableQuantity isbn < qty then
            s.waitingList.addToWaitingList isbn instId qty prio t
          else s.waitingList))
    ∧ (∀ (s : SystemState) (t : Nat), (s.executeDistribution t).waitingList = s.waitingList)
    ∧ (∀ (s : SystemState) (t : Nat) (isbn : String),
        (s.executeDistribution t).waitingList.getWaitingCount isbn =
          s.waitingList.getWaitingCount isbn) := by
  have h2 : ∀ (s : SystemState) (t : Nat),
      (s.executeDistribution t).waitingList = s.waitingList := by
    intro s t
    rcases s with ⟨inv, insts, strat, lm, wl⟩
    cases strat <;> rfl
  refine ⟨?_, h2, fun s t isbn => by rw [h2]⟩
  intro s s' instId isbn qty prio t h
  unfold SystemState.submitBookRequest at h
  cases hI : s.getInstitution instId with
  | none => rw [hI] at h; cases h
  | some inst =>
    rw [hI] at h
    cases hB : s.centralInventory.getBook isbn with
    | none => rw [hB] at h; cases h
    | some bk =>
      rw [hB] at h
      dsimp only at h
      by_cases hav : s.centralInventory.getAvailableQuantity isbn < qty
      · rw [if_pos hav] at h ⊢
        cases h
        rfl
      · rw [if_neg hav] at h ⊢
        cases h
        rfl

/-- Claim C9 witness at a concrete input: stock 100, I1 requests 150, so the
waiting list gains exactly one entry; a cycle then leaves the count alone. -/
theorem claim9_witness :
    wlBase.submitBookRequest "I1" "1234567890" 150 Priority.HIGH 7 = Except.ok wlAfter
    ∧ wlAfter.waitingList =
        (if wlBase.centralInventory.getAvailableQuantity "1234567890" < 150 then
          wlBase.waitingList.addToWaitingList "1234567890" "I1" 150 Priority.HIGH 7
        else wlBase.waitingList)
    ∧ (wlAfter.executeDistribution 8).waitingList.getWaitingCount "1234567890" =
        wlAfter.waitingList.getWaitingCount "1234567890" := by
  have h : wlBase.submitBookRequest "I1" "1234567890" 150 Priority.HIGH 7 =
      Except.ok wlAfter := by rfl
  exact ⟨h, claim9_waitingList_observational.1 wlBase wlAfter "I1" "1234567890" 150
      Priority.HIGH 7 h,
    claim9_waitingList_observational.2.2 wlAfter 8 "1234567890"⟩

/-- Claim C3: priority precedence.  For two pending requests on the same isbn
with different priorities (A at the strictly higher priority, both positive
and below the validation bound, stock `S ≥ 0`), one PriorityBased cycle
services A first and to the maximum extent stock allows — A ends fulfilled at
`min(qA, S)` — and B only receives from what is left: `min(qB, S - min(qA, S))`.
The statuses follow the fulfillPartial transition rule on those quantities. -/
theorem claim3_priority_precedence (B : String) (bk : Book) (S qA qB : Int)
    (pA pB : Priority) (t : Nat)
    (hqA1 : 0 < qA) (hqA2 : qA < 1000000) (hqB1 : 0 < qB) (hqB2 : qB < 1000000)
    (hS : 0 ≤ S) (hp : pB.toInt < pA.toInt) :
    (priorityBasedDistribute t (twoReqState B bk S qA qB pA pB)).getReq 0 0 =
        some ((pendingReq "RA" B qA pA).fulfillPartial (min qA S))
    ∧ (priorityBasedDistribute t (twoReqState B bk S qA qB pA pB)).getReq 1 0 =
        some ((pendingReq "RB" B qB pB).fulfillPartial (min qB (S - min qA S))) := by
  have hpool : List.insertionSort prioGE
      (pendingTriples 0 (twoReqState B bk S qA qB pA pB).insts) =
      [(0, 0, qA, pA), (1, 0, qB, pB)] := by
    simp [twoReqState, pendingTriples, reqTriples, pendingReq, RequestStatus.isPending,
      BookRequest.getRemainingQuantity, List.insertionSort, List.orderedInsert, prioGE,
      le_of_lt hp]
  rw [priorityBasedDistribute, hpool, List.foldl_cons, List.foldl_cons, List.foldl_nil]
  by_cases hS1 : S ≤ 0
  · have hS0 : S = 0 := le_antisymm hS1 hS
    subst hS0
    have hm : min qA (0 : Int) = 0 := min_eq_right (le_of_lt hqA1)
    simp [prioStep, twoReqState, DistState.getReq, BookInventory.getAvailableQuantity,
      stockLookup, pendingReq, BookRequest.fulfillPartial, hm, not_le.mpr hqA1,
      not_le.mpr hqB1, le_of_lt hqA1, le_of_lt hqB1]
  · push_neg at hS1
    by_cases hq : S ≤ qA
    · have hm : min qA S = S := min_eq_right hq
      have hv1 : Validator.isValidQuantity S = true :=
        isValidQuantity_eq_true hS1 (lt_of_le_of_lt hq hqA2)
      have hm2 : min qB (S - S) = 0 := by simp [min_eq_right (le_of_lt hqB1)]
      simp [prioStep, twoReqState, DistState.getReq, DistState.setReq, DistState.setInst,
        BookInventory.getAvailableQuantity, BookInventory.allocateBooks, stockLookup,
        stockUpdate, modifyAt, Institution.receiveBooks, bumpAssoc, hm, hv1, hm2,
        pendingReq, BookRequest.fulfillPartial, not_le.mpr hS1, not_le.mpr hqB1,
        LoanManagement.issueBookLoan, le_of_lt hqB1]
    · push_neg at hq
      have hm : min qA S = qA := min_eq_left (le_of_lt hq)
      have hv1 : Validator.isValidQuantity qA = true := isValidQuantity_eq_true hqA1 hqA2
      have hv2 : Validator.isValidQuantity (min qB (S - qA)) = true :=
        isValidQuantity_eq_true (lt_min hqB1 (by omega))
          (lt_of_le_of_lt (min_le_left _ _) hqB2)
      simp [prioStep, twoReqState, DistState.getReq, DistState.setReq, DistState.setInst,
        BookInventory.getAvailableQuantity, BookInventory.allocateBooks, stockLookup,
        stockUpdate, modifyAt, Institution.receiveBooks, bumpAssoc, hm, hv1, hv2,
        pendingReq, BookRequest.fulfillPartial, not_le.mpr hS1, not_le.mpr hqA1,
        LoanManagement.issueBookLoan, min_le_right, not_lt.mpr (le_of_lt hq),
        not_le.mpr (by omega : (0 : Int) < S - qA), not_lt.mpr (min_le_right qB (S - qA)),
        lt_min hqB1, le_of_lt hqB1]

/-- Claim C3 witness at the claim's concrete input: stock 100, A CRITICAL 60,
B LOW 60; after the cycle A is FULFILLED at 60 and B is PARTIALLY_FULFILLED
at 40. -/
theorem claim3_witness :
    ((0 : Int) < 60 ∧ (60 : Int) < 1000000 ∧ (0 : Int) ≤ 100
      ∧ Priority.LOW.toInt < Priority.CRITICAL.toInt)
    ∧ (priorityBasedDistribute 3
        (twoReqState "1234567890" demoBook 100 60 60 Priority.CRITICAL Priority.LOW)).getReq 0 0 =
        some ((pendingReq "RA" "1234567890" 60 Priority.CRITICAL).fulfillPartial (min 60 100))
    ∧ (priorityBasedDistribute 3
        (twoReqState "1234567890" demoBook 100 60 60 Priority.CRITICAL Priority.LOW)).getReq 1 0 =
        some ((pendingReq "RB" "1234567890" 60 Priority.LOW).fulfillPartial
          (min 60 (100 - min 60 100)))
    ∧ ((priorityBasedDistribute 3
        (twoReqState "1234567890" demoBook 100 60 60 Priority.CRITICAL Priority.LOW)).getReq 0 0).map
          (fun r => (r.quantityFulfilled, r.status)) = some (60, RequestStatus.FULFILLED)
    ∧ ((priorityBasedDistribute 3
        (twoReqState "1234567890" demoBook 100 60 60 Priority.CRITICAL Priority.LOW)).getReq 1 0).map
          (fun r => (r.quantityFulfilled, r.status)) =
        some (40, RequestStatus.PARTIALLY_FULFILLED) := by
  have hc := claim3_priority_precedence "1234567890" demoBook 100 60 60
    Priority.CRITICAL Priority.LOW 3 (by decide) (by decide) (by decide) (by decide)
    (by decide) (by decide)
  exact ⟨⟨by decide, by decide, by decide, by decide⟩, hc.1, hc.2, by decide, by decide⟩

theorem getElem?_modifyAt {α : Type} (l : List α) (n m : Nat) (f : α → α) :
    (modifyAt l n f)[m]? = if m = n then l[n]?.map f else l[m]? := by
  induction l generalizing n m with
  | nil => simp [modifyAt]
  | cons a as ih =>
    cases n with
    | zero =>
      cases m with
      | zero => simp [modifyAt]
      | succ m => simp [modifyAt]
    | succ n =>
      cases m with
      | zero => simp [modifyAt]
      | succ m => simpa [modifyAt] using ih n m

theorem getReq_setReq (st : DistState) (i r i' r' : Nat) (f : BookRequest → BookRequest) :
    (st.setReq i r f).getReq i' r' =
      if i' = i ∧ r' = r then (st.getReq i' r').map f else st.getReq i' r' := by
  rcases st with ⟨inv, insts, lm⟩
  simp only [DistState.setReq, DistState.getReq]
  rw [getElem?_modifyAt]
  by_cases hi : i' = i
  · subst hi
    cases hg : insts[i']? with
    | none => simp
    | some inst =>
      by_cases hr : r' = r
      · subst hr
        simp [getElem?_modifyAt]
      · simp [hr, getElem?_modifyAt]
  · simp [hi]

theorem getReq_setInst_receive (st : DistState) (i : Nat) (b : String) (q : Int)
    (i' r' : Nat) :
    (st.setInst i (fun inst => inst.receiveBooks b q)).getReq i' r' = st.getReq i' r' := by
  rcases st with ⟨inv, insts, lm⟩
  simp only [DistState.setInst, DistState.getReq]
  rw [getElem?_modifyAt]
  by_cases hi : i' = i
  · subst hi
    cases hg : insts[i']? with
    | none => simp [hg]
    | some inst => simp [hg, Institution.receiveBooks]
  · simp [hi]

theorem getReq_set_inv (st : DistState) (inv' : BookInventory) (i r : Nat) :
    ({ st with inv := inv' } : DistState).getReq i r = st.getReq i r := rfl

theorem getReq_set_lm (st : DistState) (lm' : LoanManagement) (i r : Nat) :
    ({ st with lm := lm' } : DistState).getReq i r = st.getReq i r := rfl

theorem prioStep_eq (t : Nat) (st : DistState) (i r : Nat) (needed : Int) (p : Priority) :
    prioStep t st (i, r, needed, p) =
      match st.insts[i]? with
      | none => st
      | some inst =>
          match inst.requests[r]? with
          | none => st
          | some req =>
              let available := st.inv.getAvailableQuantity req.isbn
              if available ≤ 0 then st
              else
                let alloc := min needed available
                let res := st.inv.allocateBooks req.isbn alloc
                if res.1 then
                  let st1 := { st with inv := res.2 }
                  let st2 := st1.setInst i (fun inst => inst.receiveBooks req.isbn alloc)
                  let st3 := st2.setReq i r (fun req => req.fulfillPartial alloc)
                  { st3 with lm := st3.lm.issueBookLoan req.isbn inst.institutionId alloc t }
                else st
      := rfl

theorem prioStep_getReq_other (t : Nat) (st : DistState)
    (item : Nat × Nat × Int × Priority) (i' r' : Nat)
    (h : ¬(i' = item.1 ∧ r' = item.2.1)) :
    (prioStep t st item).getReq i' r' = st.getReq i' r' := by
  obtain ⟨i, r, needed, p⟩ := item
  simp only at h
  rw [prioStep_eq]
  cases hg : st.insts[i]? with
  | none => rfl
  | some inst =>
    dsimp only
    cases hq : inst.requests[r]? with
    | none => rfl
    | some req =>
      dsimp only
      by_cases hav : st.inv.getAvailableQuantity req.isbn ≤ 0
      · rw [if_pos hav]
      · rw [if_neg hav]
        by_cases hok : (st.inv.allocateBooks req.isbn
            (min needed (st.inv.getAvailableQuantity req.isbn))).1 = true
        · rw [if_pos hok]
          rw [getReq_set_lm, getReq_setReq, if_neg h, getReq_setInst_receive, getReq_set_inv]
        · rw [if_neg hok]

theorem prioStep_ReqLE (t : Nat) (st : DistState) (item : Nat × Nat × Int × Priority)
    (hle : ReqLEAt st) (hsnap : SnapOk st item.1 item.2.1 item.2.2.1) :
    ReqLEAt (prioStep t st item) := by
  obtain ⟨i, r, needed, p⟩ := item
  simp only at hsnap
  rw [prioStep_eq]
  cases hg : st.insts[i]? with
  | none => exact hle
  | some inst =>
    dsimp only
    cases hq : inst.requests[r]? with
    | none => exact hle
    | some req =>
      dsimp only
      by_cases hav : st.inv.getAvailableQuantity req.isbn ≤ 0
      · rw [if_pos hav]; exact hle
      · rw [if_neg hav]
        by_cases hok : (st.inv.allocateBooks req.isbn
            (min needed (st.inv.getAvailableQuantity req.isbn))).1 = true
        · rw [if_pos hok]
          intro i' r' req' hreq'
          rw [getReq_set_lm, getReq_setReq] at hreq'
          by_cases hk : i' = i ∧ r' = r
          · rw [if_pos hk] at hreq'
            obtain ⟨hi, hr⟩ := hk
            subst hi; subst hr
            rw [getReq_setInst_receive, getReq_set_inv] at hreq'
            have hcur : DistState.getReq st i' r' = some req := by
              simp [DistState.getReq, hg, hq]
            rw [hcur] at hreq'
            simp only [Option.map] at hreq'
            cases hreq'
            have hsn := hsnap req hcur
            have hle2 := hle i' r' req hcur
            simp only [BookRequest.fulfillPartial, BookRequest.getRemainingQuantity] at hsn ⊢
            have hmin : min needed (st.inv.getAvailableQuantity req.isbn) ≤ needed :=
              min_le_left _ _
            omega
          · rw [if_neg hk] at hreq'
            rw [getReq_setInst_receive, getReq_set_inv] at hreq'
            exact hle i' r' req' hreq'
        · rw [if_neg hok]; exact hle




theorem foldl_prioStep_ReqLE (t : Nat) (pool : List (Nat × Nat × Int × Priority)) :
    ∀ st : DistState,
      (pool.map (fun x => (x.1, x.2.1))).Nodup →
      (∀ x ∈ pool, SnapOk st x.1 x.2.1 x.2.2.1) →
      ReqLEAt st → ReqLEAt (pool.foldl (prioStep t) st) := by
  induction pool with
  | nil => intro st _ _ h; simpa using h
  | cons x xs ih =>
    intro st hnd hsnap hle
    rw [List.foldl_cons]
    simp only [List.map_cons, List.nodup_cons] at hnd
    obtain ⟨hxk, hnd2⟩ := hnd
    apply ih _ hnd2
    · intro y hy req hreq
      have hkey : ¬(y.1 = x.1 ∧ y.2.1 = x.2.1) := by
        rintro ⟨h1, h2⟩
        exact hxk (List.mem_map.mpr ⟨y, hy, by simp [h1, h2]⟩)
      rw [prioStep_getReq_other t st x y.1 y.2.1 hkey] at hreq
      exact hsnap y (List.mem_cons_of_mem _ hy) req hreq
    · exact prioStep_ReqLE t st x hle (hsnap x (List.mem_cons_self _ _))

theorem mem_reqTriples {x : Nat × Nat × Int × Priority} (i : Nat) :
    ∀ (reqs : List BookRequest) (r0 : Nat), x ∈ reqTriples i r0 reqs →
      x.1 = i ∧ r0 ≤ x.2.1 ∧ ∃ req, reqs[x.2.1 - r0]? = some req ∧
        req.status.isPending = true ∧ x.2.2.1 = req.getRemainingQuantity ∧
        x.2.2.2 = req.priority := by
  intro reqs
  induction reqs with
  | nil => intro r0 h; simp [reqTriples] at h
  | cons req rest ih =>
    intro r0 h
    rw [reqTriples] at h
    rcases List.mem_append.mp h with h1 | h2
    · by_cases hp : req.status.isPending
      · rw [if_pos hp] at h1
        simp only [List.mem_singleton] at h1
        subst h1
        refine ⟨rfl, le_refl _, req, ?_, hp, rfl, rfl⟩
        simp
      · rw [if_neg hp] at h1
        simp at h1
    · obtain ⟨h1, h2', req', hget, hp, hrem, hprio⟩ := ih (r0 + 1) h2
      refine ⟨h1, by omega, req', ?_, hp, hrem, hprio⟩
      have hidx : x.2.1 - r0 = (x.2.1 - (r0 + 1)) + 1 := by omega
      rw [hidx, List.getElem?_cons_succ]
      exact hget

theorem mem_pendingTriples {x : Nat × Nat × Int × Priority} :
    ∀ (insts : List Institution) (i0 : Nat), x ∈ pendingTriples i0 insts →
      i0 ≤ x.1 ∧ ∃ inst req, insts[x.1 - i0]? = some inst ∧
        inst.requests[x.2.1]? = some req ∧ req.status.isPending = true ∧
        x.2.2.1 = req.getRemainingQuantity ∧ x.2.2.2 = req.priority := by
  intro insts
  induction insts with
  | nil => intro i0 h; simp [pendingTriples] at h
  | cons inst rest ih =>
    intro i0 h
    rw [pendingTriples] at h
    rcases List.mem_append.mp h with h1 | h2
    · obtain ⟨hx1, _, req, hget, hp, hrem, hprio⟩ := mem_reqTriples i0 inst.requests 0 h1
      refine ⟨le_of_eq hx1.symm, inst, req, ?_, by simpa using hget, hp, hrem, hprio⟩
      have hidx : x.1 - i0 = 0 := by omega
      rw [hidx]
      simp
    · obtain ⟨hle, inst', req, hget, hrest⟩ := ih (i0 + 1) h2
      refine ⟨by omega, inst', req, ?_, hrest⟩
      have hidx : x.1 - i0 = (x.1 - (i0 + 1)) + 1 := by omega
      rw [hidx, List.getElem?_cons_succ]
      exact hget

theorem reqTriples_keys_nodup (i : Nat) :
    ∀ (reqs : List BookRequest) (r0 : Nat),
      ((reqTriples i r0 reqs).map (fun x => (x.1, x.2.1))).Nodup := by
  intro reqs
  induction reqs with
  | nil => intro r0; simp [reqTriples]
  | cons req rest ih =>
    intro r0
    rw [reqTriples, List.map_append]
    rw [List.nodup_append]
    refine ⟨?_, ih (r0 + 1), ?_⟩
    · by_cases hp : req.status.isPending
      · rw [if_pos hp]; simp
      · rw [if_neg hp]; simp
    · intro a ha hb
      rcases List.mem_map.mp hb with ⟨y, hy, hyk⟩
      obtain ⟨_, hge, _⟩ := mem_reqTriples i rest (r0 + 1) hy
      by_cases hp : req.status.isPending
      · rw [if_pos hp] at ha
        simp only [List.map_cons, List.map_nil, List.mem_singleton] at ha
        subst ha
        have : y.2.1 = r0 := congrArg Prod.snd hyk
        omega
      · rw [if_neg hp] at ha
        simp at ha

theorem pendingTriples_keys_nodup :
    ∀ (insts : List Institution) (i0 : Nat),
      ((pendingTriples i0 insts).map (fun x => (x.1, x.2.1))).Nodup := by
  intro insts
  induction insts with
  | nil => intro i0; simp [pendingTriples]
  | cons inst rest ih =>
    intro i0
    rw [pendingTriples, List.map_append, List.nodup_append]
    refine ⟨reqTriples_keys_nodup i0 inst.requests 0, ih (i0 + 1), ?_⟩
    intro a ha hb
    rcases List.mem_map.mp ha with ⟨y, hy, hyk⟩
    rcases List.mem_map.mp hb with ⟨z, hz, hzk⟩
    obtain ⟨hy1, _⟩ := mem_reqTriples i0 inst.requests 0 hy
    obtain ⟨hz1, _⟩ := mem_pendingTriples rest (i0 + 1) hz
    have h1 : y.1 = a.1 := congrArg Prod.fst hyk
    have h2 : z.1 = a.1 := congrArg Prod.fst hzk
    omega

theorem priorityBasedDistribute_ReqLE (t : Nat) (st : DistState) (hle : ReqLEAt st) :
    ReqLEAt (priorityBasedDistribute t st) := by
  rw [priorityBasedDistribute]
  have hperm := List.perm_insertionSort prioGE (pendingTriples 0 st.insts)
  apply foldl_prioStep_ReqLE
  · exact ((hperm.map (fun x => (x.1, x.2.1))).nodup_iff).mpr
      (pendingTriples_keys_nodup st.insts 0)
  · intro x hx
    have hx2 : x ∈ pendingTriples 0 st.insts := hperm.mem_iff.mp hx
    obtain ⟨_, inst, req, hgi, hgr, hp, hrem, hprio⟩ :=
      mem_pendingTriples st.insts 0 hx2
    intro req' hreq'
    have hcur : st.getReq x.1 x.2.1 = some req := by
      rw [DistState.getReq]
      simp only [Nat.sub_zero] at hgi
      rw [hgi]
      exact hgr
    rw [hcur] at hreq'
    cases hreq'
    rw [hrem]
  · exact hle




theorem needStep_eq (t : Nat) (isbn : String) (available totalNeed : Int)
    (st : DistState) (i r : Nat) (need : Int) :
    needStep t isbn available totalNeed st (i, r, need) =
      (let alloc := if 0 < totalNeed then min need ((available * need).tdiv totalNeed) else 0
      if 0 < alloc then
        let res := st.inv.allocateBooks isbn alloc
        if res.1 then
          match st.insts[i]? with
          | none => st
          | some inst =>
              let st1 := { st with inv := res.2 }
              let st2 := st1.setInst i (fun inst => inst.receiveBooks isbn alloc)
              let st3 := st2.setReq i r (fun req => req.fulfillPartial alloc)
              { st3 with lm := st3.lm.issueBookLoan isbn inst.institutionId alloc t }
        else st
      else st) := rfl

theorem needStep_getReq_other (t : Nat) (isbn : String) (A T : Int) (st : DistState)
    (item : Nat × Nat × Int) (i' r' : Nat) (h : ¬(i' = item.1 ∧ r' = item.2.1)) :
    (needStep t isbn A T st item).getReq i' r' = st.getReq i' r' := by
  obtain ⟨i, r, need⟩ := item
  simp only at h
  rw [needStep_eq]
  dsimp only
  by_cases ha : 0 < (if 0 < T then min need ((A * need).tdiv T) else 0)
  · rw [if_pos ha]
    by_cases hok : (st.inv.allocateBooks isbn
        (if 0 < T then min need ((A * need).tdiv T) else 0)).1 = true
    · rw [if_pos hok]
      cases hg : st.insts[i]? with
      | none => rfl
      | some inst =>
        dsimp only
        rw [getReq_set_lm, getReq_setReq, if_neg h, getReq_setInst_receive, getReq_set_inv]
    · rw [if_neg hok]
  · rw [if_neg ha]

theorem needStep_ReqLE (t : Nat) (isbn : String) (A T : Int) (st : DistState)
    (item : Nat × Nat × Int) (hle : ReqLEAt st)
    (hsnap : SnapOk st item.1 item.2.1 item.2.2) :
    ReqLEAt (needStep t isbn A T st item) := by
  obtain ⟨i, r, need⟩ := item
  simp only at hsnap
  rw [needStep_eq]
  dsimp only
  by_cases ha : 0 < (if 0 < T then min need ((A * need).tdiv T) else 0)
  · rw [if_pos ha]
    have halloc : (if 0 < T then min need ((A * need).tdiv T) else 0) ≤ need := by
      by_cases hT : 0 < T
      · rw [if_pos hT]; exact min_le_left _ _
      · rw [if_neg hT] at ha ⊢
        omega
    by_cases hok : (st.inv.allocateBooks isbn
        (if 0 < T then min need ((A * need).tdiv T) else 0)).1 = true
    · rw [if_pos hok]
      cases hg : st.insts[i]? with
      | none => exact hle
      | some inst =>
        dsimp only
        intro i' r' req' hreq'
        rw [getReq_set_lm, getReq_setReq] at hreq'
        by_cases hk : i' = i ∧ r' = r
        · rw [if_pos hk] at hreq'
          obtain ⟨hi, hr⟩ := hk
          subst hi; subst hr
          rw [getReq_setInst_receive, getReq_set_inv] at hreq'
          cases hcur : st.getReq i' r' with
          | none => rw [hcur] at hreq'; simp at hreq'
          | some req =>
            rw [hcur] at hreq'
            simp only [Option.map] at hreq'
            cases hreq'
            have hsn := hsnap req hcur
            have hle2 := hle i' r' req hcur
            simp only [BookRequest.fulfillPartial, BookRequest.getRemainingQuantity] at hsn ⊢
            omega
        · rw [if_neg hk] at hreq'
          rw [getReq_setInst_receive, getReq_set_inv] at hreq'
          exact hle i' r' req' hreq'
    · rw [if_neg hok]; exact hle
  · rw [if_neg ha]; exact hle

theorem foldl_needStep_ReqLE (t : Nat) (isbn : String) (A T : Int)
    (items : List (Nat × Nat × Int)) :
    ∀ st : DistState,
      (items.map (fun x => (x.1, x.2.1))).Nodup →
      (∀ x ∈ items, SnapOk st x.1 x.2.1 x.2.2) →
      ReqLEAt st →
      ReqLEAt (items.foldl (needStep t isbn A T) st) ∧
      (∀ i' r', (∀ x ∈ items, ¬(i' = x.1 ∧ r' = x.2.1)) →
        (items.foldl (needStep t isbn A T) st).getReq i' r' = st.getReq i' r') := by
  induction items with
  | nil => intro st _ _ hle; exact ⟨hle, fun _ _ _ => rfl⟩
  | cons x xs ih =>
    intro st hnd hsnap hle
    rw [List.foldl_cons]
    simp only [List.map_cons, List.nodup_cons] at hnd
    obtain ⟨hxk, hnd2⟩ := hnd
    have hstep := needStep_ReqLE t isbn A T st x hle (hsnap x (List.mem_cons_self _ _))
    have hsnap2 : ∀ y ∈ xs, SnapOk (needStep t isbn A T st x) y.1 y.2.1 y.2.2 := by
      intro y hy req hreq
      have hkey : ¬(y.1 = x.1 ∧ y.2.1 = x.2.1) := by
        rintro ⟨h1, h2⟩
        exact hxk (List.mem_map.mpr ⟨y, hy, by simp [h1, h2]⟩)
      rw [needStep_getReq_other t isbn A T st x y.1 y.2.1 hkey] at hreq
      exact hsnap y (List.mem_cons_of_mem _ hy) req hreq
    obtain ⟨hATle, hframe⟩ := ih (needStep t isbn A T st x) hnd2 hsnap2 hstep
    refine ⟨hATle, ?_⟩
    intro i' r' hall
    rw [hframe i' r' (fun y hy => hall y (List.mem_cons_of_mem _ hy))]
    exact needStep_getReq_other t isbn A T st x i' r' (hall x (List.mem_cons_self _ _))

set_option maxHeartbeats 1000000 in
theorem needIsbn_ReqLE (t : Nat) (grp : String × List (Nat × Nat × Int)) :
    ∀ st : DistState,
      (grp.2.map (fun x => (x.1, x.2.1))).Nodup →
      (∀ x ∈ grp.2, SnapOk st x.1 x.2.1 x.2.2) →
      ReqLEAt st →
      ReqLEAt (needIsbn t st grp) ∧
      (∀ i' r', (∀ x ∈ grp.2, ¬(i' = x.1 ∧ r' = x.2.1)) →
        (needIsbn t st grp).getReq i' r' = st.getReq i' r') := by
  intro st hnd hsnap hle
  have heq : needIsbn t st grp =
      (if st.inv.getAvailableQuantity grp.1 ≤ 0 then st
      else grp.2.foldl (needStep t grp.1 (st.inv.getAvailableQuantity grp.1)
        (grp.2.foldl (fun s x => s + x.2.2) 0)) st) := by
    unfold needIsbn
    simp only []
  rw [heq]
  by_cases hav : st.inv.getAvailableQuantity grp.1 ≤ 0
  · rw [if_pos hav]
    exact ⟨hle, fun _ _ _ => rfl⟩
  · rw [if_neg hav]
    have h1 := foldl_needStep_ReqLE t grp.1 (st.inv.getAvailableQuantity grp.1)
      (grp.2.foldl (fun s x => s + x.2.2) 0) grp.2 st hnd hsnap hle
    exact h1

theorem foldl_needIsbn_ReqLE (t : Nat) (groups : List (String × List (Nat × Nat × Int))) :
    ∀ st : DistState,
      (((groups.map Prod.snd).flatten).map (fun x => (x.1, x.2.1))).Nodup →
      (∀ x ∈ (groups.map Prod.snd).flatten, SnapOk st x.1 x.2.1 x.2.2) →
      ReqLEAt st → ReqLEAt (groups.foldl (needIsbn t) st) := by
  induction groups with
  | nil => intro st _ _ hle; simpa using hle
  | cons g rest ih =>
    intro st hnd hsnap hle
    rw [List.foldl_cons]
    simp only [List.map_cons, List.flatten_cons, List.map_append, List.nodup_append] at hnd
    obtain ⟨hnd1, hnd2, hdisj⟩ := hnd
    have hsnap1 : ∀ x ∈ g.2, SnapOk st x.1 x.2.1 x.2.2 := by
      intro x hx
      exact hsnap x (List.mem_append.mpr (Or.inl hx))
    obtain ⟨hle2, hframe⟩ := needIsbn_ReqLE t g st hnd1 hsnap1 hle
    apply ih _ hnd2 _ hle2
    intro y hy req hreq
    have hykey : ∀ x ∈ g.2, ¬(y.1 = x.1 ∧ y.2.1 = x.2.1) := by
      intro x hx hk
      obtain ⟨h1, h2⟩ := hk
      exact hdisj (List.mem_map.mpr ⟨x, hx, rfl⟩)
        (List.mem_map.mpr ⟨y, hy, by simp [h1, h2]⟩) |>.elim
    rw [hframe y.1 y.2.1 hykey] at hreq
    exact hsnap y (List.mem_append.mpr (Or.inr hy)) req hreq




theorem insertGrouped_flatten_perm {β : Type} (m : List (String × List β)) (k : String) (v : β) :
    (((insertGrouped m k v).map Prod.snd).flatten).Perm
      (((m.map Prod.snd).flatten) ++ [v]) := by
  induction m with
  | nil => simp [insertGrouped]
  | cons p rest ih =>
    obtain ⟨k2, vs⟩ := p
    by_cases hk : k2 = k
    · rw [insertGrouped, if_pos hk]
      simp only [List.map_cons, List.flatten_cons]
      rw [List.append_assoc, List.append_assoc]
      exact List.Perm.append_left vs (List.perm_append_comm)
    · rw [insertGrouped, if_neg hk]
      simp only [List.map_cons, List.flatten_cons]
      rw [List.append_assoc]
      exact List.Perm.append_left vs ih

theorem foldl_insertGrouped_flatten_perm {β : Type} (L : List (String × β)) :
    ∀ m : List (String × List β),
      (((L.foldl (fun m kv => insertGrouped m kv.1 kv.2) m).map Prod.snd).flatten).Perm
        (((m.map Prod.snd).flatten) ++ L.map Prod.snd) := by
  induction L with
  | nil => intro m; simp
  | cons kv rest ih =>
    intro m
    rw [List.foldl_cons]
    refine (ih (insertGrouped m kv.1 kv.2)).trans ?_
    have h1 := insertGrouped_flatten_perm m kv.1 kv.2
    refine (h1.append_right (rest.map Prod.snd)).trans ?_
    rw [List.append_assoc]
    simp

theorem buildNeedMap_flatten_perm (insts : List Institution) :
    (((buildNeedMap insts).map Prod.snd).flatten).Perm
      ((needyItems 0 insts).map Prod.snd) := by
  have h := foldl_insertGrouped_flatten_perm (needyItems 0 insts) []
  simpa [buildNeedMap] using h

theorem mem_needyReqItems {y : String × Nat × Nat × Int} (i : Nat) :
    ∀ (reqs : List BookRequest) (r0 : Nat), y ∈ needyReqItems i r0 reqs →
      y.2.1 = i ∧ r0 ≤ y.2.2.1 ∧ ∃ req, reqs[y.2.2.1 - r0]? = some req ∧
        req.status.isPending = true ∧ 0 < req.getRemainingQuantity ∧
        y.1 = req.isbn ∧ y.2.2.2 = req.getRemainingQuantity := by
  intro reqs
  induction reqs with
  | nil => intro r0 h; simp [needyReqItems] at h
  | cons req rest ih =>
    intro r0 h
    rw [needyReqItems] at h
    rcases List.mem_append.mp h with h1 | h2
    · by_cases hp : (req.status.isPending && decide (0 < req.getRemainingQuantity)) = true
      · rw [if_pos hp] at h1
        simp only [List.mem_singleton] at h1
        subst h1
        simp only [Bool.and_eq_true, decide_eq_true_eq] at hp
        refine ⟨rfl, le_refl _, req, ?_, hp.1, hp.2, rfl, rfl⟩
        simp
      · rw [if_neg hp] at h1
        simp at h1
    · obtain ⟨h1, h2b, req2, hget, hrest⟩ := ih (r0 + 1) h2
      refine ⟨h1, by omega, req2, ?_, hrest⟩
      have hidx : y.2.2.1 - r0 = (y.2.2.1 - (r0 + 1)) + 1 := by omega
      rw [hidx, List.getElem?_cons_succ]
      exact hget

theorem mem_needyItems {y : String × Nat × Nat × Int} :
    ∀ (insts : List Institution) (i0 : Nat), y ∈ needyItems i0 insts →
      i0 ≤ y.2.1 ∧ ∃ inst req, insts[y.2.1 - i0]? = some inst ∧
        inst.requests[y.2.2.1]? = some req ∧
        req.status.isPending = true ∧ 0 < req.getRemainingQuantity ∧
        y.1 = req.isbn ∧ y.2.2.2 = req.getRemainingQuantity := by
  intro insts
  induction insts with
  | nil => intro i0 h; simp [needyItems] at h
  | cons inst rest ih =>
    intro i0 h
    rw [needyItems] at h
    rcases List.mem_append.mp h with h1 | h2
    · obtain ⟨hy1, _, req, hget, hrest⟩ := mem_needyReqItems i0 inst.requests 0 h1
      refine ⟨le_of_eq hy1.symm, inst, req, ?_, by simpa using hget, hrest⟩
      have hidx : y.2.1 - i0 = 0 := by omega
      rw [hidx]
      simp
    · obtain ⟨hle2, inst2, req2, hget, hrest⟩ := ih (i0 + 1) h2
      refine ⟨by omega, inst2, req2, ?_, hrest⟩
      have hidx : y.2.1 - i0 = (y.2.1 - (i0 + 1)) + 1 := by omega
      rw [hidx, List.getElem?_cons_succ]
      exact hget

theorem needyReqItems_keys_nodup (i : Nat) :
    ∀ (reqs : List BookRequest) (r0 : Nat),
      ((needyReqItems i r0 reqs).map (fun y => (y.2.1, y.2.2.1))).Nodup := by
  intro reqs
  induction reqs with
  | nil => intro r0; simp [needyReqItems]
  | cons req rest ih =>
    intro r0
    rw [needyReqItems, List.map_append, List.nodup_append]
    refine ⟨?_, ih (r0 + 1), ?_⟩
    · by_cases hp : (req.status.isPending && decide (0 < req.getRemainingQuantity)) = true
      · rw [if_pos hp]; simp
      · rw [if_neg hp]; simp
    · intro a ha hb
      rcases List.mem_map.mp hb with ⟨y, hy, hyk⟩
      obtain ⟨_, hge, _⟩ := mem_needyReqItems i rest (r0 + 1) hy
      by_cases hp : (req.status.isPending && decide (0 < req.getRemainingQuantity)) = true
      · rw [if_pos hp] at ha
        simp only [List.map_cons, List.map_nil, List.mem_singleton] at ha
        subst ha
        have : y.2.2.1 = r0 := congrArg Prod.snd hyk
        omega
      · rw [if_neg hp] at ha
        simp at ha

theorem needyItems_keys_nodup :
    ∀ (insts : List Institution) (i0 : Nat),
      ((needyItems i0 insts).map (fun y => (y.2.1, y.2.2.1))).Nodup := by
  intro insts
  induction insts with
  | nil => intro i0; simp [needyItems]
  | cons inst rest ih =>
    intro i0
    rw [needyItems, List.map_append, List.nodup_append]
    refine ⟨needyReqItems_keys_nodup i0 inst.requests 0, ih (i0 + 1), ?_⟩
    intro a ha hb
    rcases List.mem_map.mp ha with ⟨y, hy, hyk⟩
    rcases List.mem_map.mp hb with ⟨z, hz, hzk⟩
    obtain ⟨hy1, _⟩ := mem_needyReqItems i0 inst.requests 0 hy
    obtain ⟨hz1, _⟩ := mem_needyItems rest (i0 + 1) hz
    have h1 : y.2.1 = a.1 := congrArg Prod.fst hyk
    have h2 : z.2.1 = a.1 := congrArg Prod.fst hzk
    omega

theorem needBasedDistribute_ReqLE (t : Nat) (st : DistState) (hle : ReqLEAt st) :
    ReqLEAt (needBasedDistribute t st) := by
  rw [needBasedDistribute]
  have hperm := buildNeedMap_flatten_perm st.insts
  apply foldl_needIsbn_ReqLE
  · have h1 : (((buildNeedMap st.insts).map Prod.snd).flatten).map
        (fun x => (x.1, x.2.1)) |>.Perm
        (((needyItems 0 st.insts).map Prod.snd).map (fun x => (x.1, x.2.1))) :=
      hperm.map _
    apply h1.nodup_iff.mpr
    rw [List.map_map]
    exact needyItems_keys_nodup st.insts 0
  · intro x hx
    have hx2 : x ∈ (needyItems 0 st.insts).map Prod.snd := hperm.mem_iff.mp hx
    rcases List.mem_map.mp hx2 with ⟨y, hy, hyx⟩
    obtain ⟨_, inst, req, hgi, hgr, hp, hpos, hisbn, hrem⟩ :=
      mem_needyItems st.insts 0 hy
    intro req2 hreq2
    subst hyx
    have hcur : st.getReq y.2.1 y.2.2.1 = some req := by
      rw [DistState.getReq]
      simp only [Nat.sub_zero] at hgi
      rw [hgi]
      exact hgr
    rw [DistState.getReq] at hreq2
    rw [DistState.getReq] at hcur
    rw [hcur] at hreq2
    cases hreq2
    rw [hrem]
  · exact hle




theorem equalStep_eq (t : Nat) (isbn : String) (perInst : Int) (st : DistState)
    (i r : Nat) (n : Int) :
    equalStep t isbn perInst st (i, r, n) =
      (match st.insts[i]? with
      | none => st
      | some inst =>
          match inst.requests[r]? with
          | none => st
          | some req =>
              let alloc := min perInst req.getRemainingQuantity
              if 0 < alloc then
                let res := st.inv.allocateBooks isbn alloc
                if res.1 then
                  let st1 := { st with inv := res.2 }
                  let st2 := st1.setInst i (fun inst => inst.receiveBooks isbn alloc)
                  let st3 := st2.setReq i r (fun req => req.fulfillPartial alloc)
                  { st3 with lm := st3.lm.issueBookLoan isbn inst.institutionId alloc t }
                else st
              else st) := rfl

theorem equalStep_ReqLE (t : Nat) (isbn : String) (perInst : Int) (st : DistState)
    (item : Nat × Nat × Int) (hle : ReqLEAt st) :
    ReqLEAt (equalStep t isbn perInst st item) := by
  obtain ⟨i, r, n⟩ := item
  rw [equalStep_eq]
  cases hg : st.insts[i]? with
  | none => exact hle
  | some inst =>
    dsimp only
    cases hq : inst.requests[r]? with
    | none => exact hle
    | some req =>
      dsimp only
      by_cases ha : 0 < min perInst req.getRemainingQuantity
      · rw [if_pos ha]
        by_cases hok : (st.inv.allocateBooks isbn (min perInst req.getRemainingQuantity)).1 = true
        · rw [if_pos hok]
          intro i' r' req' hreq'
          rw [getReq_set_lm, getReq_setReq] at hreq'
          by_cases hk : i' = i ∧ r' = r
          · rw [if_pos hk] at hreq'
            obtain ⟨hi, hr⟩ := hk
            subst hi; subst hr
            rw [getReq_setInst_receive, getReq_set_inv] at hreq'
            have hcur : st.getReq i' r' = some req := by
              rw [DistState.getReq, hg]
              exact hq
            rw [hcur] at hreq'
            simp only [Option.map] at hreq'
            cases hreq'
            have hle2 := hle i' r' req hcur
            have hmin : min perInst req.getRemainingQuantity ≤ req.getRemainingQuantity :=
              min_le_right _ _
            simp only [BookRequest.fulfillPartial, BookRequest.getRemainingQuantity] at hmin ⊢
            omega
          · rw [if_neg hk] at hreq'
            rw [getReq_setInst_receive, getReq_set_inv] at hreq'
            exact hle i' r' req' hreq'
        · rw [if_neg hok]; exact hle
      · rw [if_neg ha]; exact hle

theorem foldl_equalStep_ReqLE (t : Nat) (isbn : String) (perInst : Int)
    (items : List (Nat × Nat × Int)) :
    ∀ st : DistState, ReqLEAt st → ReqLEAt (items.foldl (equalStep t isbn perInst) st) := by
  induction items with
  | nil => intro st hle; simpa using hle
  | cons x xs ih =>
    intro st hle
    rw [List.foldl_cons]
    exact ih _ (equalStep_ReqLE t isbn perInst st x hle)

theorem equalIsbn_ReqLE (t : Nat) (grp : String × List (Nat × Nat × Int))
    (st : DistState) (hle : ReqLEAt st) : ReqLEAt (equalIsbn t st grp) := by
  have heq : equalIsbn t st grp =
      (if st.inv.getAvailableQuantity grp.1 ≤ 0 || grp.2.isEmpty then st
      else
        if (st.inv.getAvailableQuantity grp.1).tdiv (grp.2.length : Int) ≤ 0 then st
        else grp.2.foldl (equalStep t grp.1
          ((st.inv.getAvailableQuantity grp.1).tdiv (grp.2.length : Int))) st) := by
    unfold equalIsbn
    simp only []
  rw [heq]
  by_cases h1 : st.inv.getAvailableQuantity grp.1 ≤ 0 || grp.2.isEmpty
  · rw [if_pos h1]; exact hle
  · rw [if_neg h1]
    by_cases h2 : (st.inv.getAvailableQuantity grp.1).tdiv (grp.2.length : Int) ≤ 0
    · rw [if_pos h2]; exact hle
    · rw [if_neg h2]
      have h3 := foldl_equalStep_ReqLE t grp.1
        ((st.inv.getAvailableQuantity grp.1).tdiv (grp.2.length : Int)) grp.2 st hle
      exact h3

theorem equalDistribute_ReqLE (t : Nat) (st : DistState) (hle : ReqLEAt st) :
    ReqLEAt (equalDistribute t st) := by
  rw [equalDistribute]
  generalize buildNeedMap st.insts = groups
  induction groups generalizing st with
  | nil => simpa using hle
  | cons g rest ih =>
    rw [List.foldl_cons]
    exact ih _ (equalIsbn_ReqLE t g st hle)

theorem RequestsLE_iff (inv : BookInventory) (lm : LoanManagement)
    (insts : List Institution) :
    RequestsLE insts ↔ ReqLEAt ⟨inv, insts, lm⟩ := by
  constructor
  · intro h i r req hreq
    rw [DistState.getReq] at hreq
    cases hg : insts[i]? with
    | none => rw [hg] at hreq; cases hreq
    | some inst =>
      rw [hg] at hreq
      exact h inst (List.getElem?_mem hg) req (List.getElem?_mem hreq)
  · intro h inst hinst req hreq
    obtain ⟨i, hi⟩ := List.mem_iff_getElem?.mp hinst
    obtain ⟨r, hr⟩ := List.mem_iff_getElem?.mp hreq
    apply h i r req
    rw [DistState.getReq]
    dsimp only
    rw [hi]
    exact hr




/-- Claim C4 (amended): the invariant `fulfilled <= requested` survives
`fulfillPartial` for every `0 <= qty <= remaining`, and it survives one
distribution cycle under each of the three strategies (the strategies only
ever call `fulfillPartial` with an allocation bounded by the remaining
quantity of the request being served). -/
theorem claim4_request_invariant_amended :
    (∀ (r : BookRequest) (qty : Int), 0 ≤ qty → qty ≤ r.getRemainingQuantity →
        (r.fulfillPartial qty).quantityFulfilled ≤ (r.fulfillPartial qty).quantityRequested)
    ∧ (∀ (s : SystemState) (t : Nat), RequestsLE s.institutions →
        RequestsLE (s.executeDistribution t).institutions) := by
  constructor
  · intro r qty h0 hrem
    simp only [BookRequest.fulfillPartial, BookRequest.getRemainingQuantity] at hrem ⊢
    omega
  · intro s t h
    rcases s with ⟨inv, insts, strat, lm, wl⟩
    have hle : ReqLEAt ⟨inv, insts, lm⟩ := (RequestsLE_iff inv lm insts).mp h
    cases strat with
    | priorityBased =>
      have h2 := priorityBasedDistribute_ReqLE t ⟨inv, insts, lm⟩ hle
      have h3 : RequestsLE (priorityBasedDistribute t ⟨inv, insts, lm⟩).insts :=
        (RequestsLE_iff (priorityBasedDistribute t ⟨inv, insts, lm⟩).inv
          (priorityBasedDistribute t ⟨inv, insts, lm⟩).lm _).mpr h2
      exact h3
    | needBased =>
      have h2 := needBasedDistribute_ReqLE t ⟨inv, insts, lm⟩ hle
      have h3 : RequestsLE (needBasedDistribute t ⟨inv, insts, lm⟩).insts :=
        (RequestsLE_iff (needBasedDistribute t ⟨inv, insts, lm⟩).inv
          (needBasedDistribute t ⟨inv, insts, lm⟩).lm _).mpr h2
      exact h3
    | equal =>
      have h2 := equalDistribute_ReqLE t ⟨inv, insts, lm⟩ hle
      have h3 : RequestsLE (equalDistribute t ⟨inv, insts, lm⟩).insts :=
        (RequestsLE_iff (equalDistribute t ⟨inv, insts, lm⟩).inv
          (equalDistribute t ⟨inv, insts, lm⟩).lm _).mpr h2
      exact h3

/-- Claim C4 amended witness at concrete inputs: fulfilling 1 of the
1-requested demo request keeps the invariant, and one PriorityBased cycle on
the end-to-end scenario state keeps it for all requests. -/
theorem claim4_witness :
    ((0 : Int) ≤ 1 ∧ (1 : Int) ≤ overReq.getRemainingQuantity
      ∧ RequestsLE returnScenario.institutions)
    ∧ (overReq.fulfillPartial 1).quantityFulfilled ≤
        (overReq.fulfillPartial 1).quantityRequested
    ∧ RequestsLE (returnScenario.executeDistribution 9).institutions := by
  refine ⟨⟨by decide, by decide, by decide⟩, ?_, ?_⟩
  · exact claim4_request_invariant_amended.1 overReq 1 (by decide) (by decide)
  · exact claim4_request_invariant_amended.2 returnScenario 9 (by decide)

end GovBooks


namespace GovBooks

theorem tdiv_coe (m k : Nat) : ((m : Int)).tdiv (k : Int) = ((m / k : Nat) : Int) := rfl

theorem tdiv_add_tdiv_le (a b c : Int) (ha : 0 ≤ a) (hb : 0 ≤ b) (hc : 0 < c) :
    a.tdiv c + b.tdiv c ≤ (a + b).tdiv c := by
  obtain ⟨m, rfl⟩ := Int.eq_ofNat_of_zero_le ha
  obtain ⟨n, rfl⟩ := Int.eq_ofNat_of_zero_le hb
  obtain ⟨k, rfl⟩ := Int.eq_ofNat_of_zero_le (le_of_lt hc)
  have hk : 0 < k := by exact_mod_cast hc
  rw [tdiv_coe, tdiv_coe,
    show ((m : Int) + (n : Int)) = ((m + n : Nat) : Int) from (Nat.cast_add m n).symm,
    tdiv_coe]
  have h1 : m / k + n / k ≤ (m + n) / k := by
    rw [Nat.le_div_iff_mul_le hk, Nat.add_mul]
    exact Nat.add_le_add (Nat.div_mul_le_self m k) (Nat.div_mul_le_self n k)
  exact_mod_cast h1

theorem tdiv_le_tdiv_of_le (a b c : Int) (ha : 0 ≤ a) (hab : a ≤ b) (hc : 0 < c) :
    a.tdiv c ≤ b.tdiv c := by
  obtain ⟨m, rfl⟩ := Int.eq_ofNat_of_zero_le ha
  obtain ⟨n, rfl⟩ := Int.eq_ofNat_of_zero_le (ha.trans hab)
  obtain ⟨k, rfl⟩ := Int.eq_ofNat_of_zero_le (le_of_lt hc)
  rw [tdiv_coe, tdiv_coe]
  have hmn : m ≤ n := by exact_mod_cast hab
  exact_mod_cast Nat.div_le_div_right hmn

theorem mul_tdiv_cancel_of_nonneg (a c : Int) (ha : 0 ≤ a) (hc : 0 < c) :
    (a * c).tdiv c = a := by
  obtain ⟨m, rfl⟩ := Int.eq_ofNat_of_zero_le ha
  obtain ⟨k, rfl⟩ := Int.eq_ofNat_of_zero_le (le_of_lt hc)
  have hk : 0 < k := by exact_mod_cast hc
  rw [← Nat.cast_mul, tdiv_coe]
  rw [mul_comm, Nat.mul_div_cancel_left m hk]

theorem propShare_nonneg (A T n : Int) (hA : 0 ≤ A) (hn : 0 ≤ n) (hT : 0 ≤ T) :
    0 ≤ propShare A T n :=
  le_min hn (Int.tdiv_nonneg (mul_nonneg hA hn) hT)

theorem sum_tdiv_le (A T : Int) (hA : 0 ≤ A) (hT : 0 < T) :
    ∀ ns : List Int, (∀ n ∈ ns, 0 ≤ n) →
      (ns.map (fun n => (A * n).tdiv T)).sum ≤ (A * ns.sum).tdiv T := by
  intro ns
  induction ns with
  | nil =>
    intro _
    simp only [List.map_nil, List.sum_nil]
    exact Int.tdiv_nonneg (by simp) (le_of_lt hT)
  | cons n rest ih =>
    intro hns
    simp only [List.map_cons, List.sum_cons]
    have h1 := ih (fun m hm => hns m (List.mem_cons_of_mem _ hm))
    have h2 : (A * n).tdiv T + (rest.map (fun n => (A * n).tdiv T)).sum ≤
        (A * n).tdiv T + (A * rest.sum).tdiv T := by omega
    refine h2.trans ?_
    have h3 := tdiv_add_tdiv_le (A * n) (A * rest.sum)  T
      (mul_nonneg hA (hns n (List.mem_cons_self _ _)))
      (mul_nonneg hA (List.sum_nonneg (fun m hm => hns m (List.mem_cons_of_mem _ hm)))) hT
    calc (A * n).tdiv T + (A * rest.sum).tdiv T
        ≤ (A * n + A * rest.sum).tdiv T := h3
      _ = (A * (n + rest.sum)).tdiv T := by rw [mul_add]

theorem sum_propShare_le (A T : Int) (ns : List Int) (hA : 0 ≤ A) (hT : 0 < T)
    (hsum : ns.sum ≤ T) (hns : ∀ n ∈ ns, 0 ≤ n) :
    (ns.map (fun n => propShare A T n)).sum ≤ A := by
  have h1 : (ns.map (fun n => propShare A T n)).sum ≤
      (ns.map (fun n => (A * n).tdiv T)).sum := by
    apply List.sum_le_sum
    intro n hn
    exact min_le_right _ _
  have h2 := sum_tdiv_le A T hA hT ns hns
  have h3 : (A * ns.sum).tdiv T ≤ (A * T).tdiv T :=
    tdiv_le_tdiv_of_le (A * ns.sum) (A * T) T (mul_nonneg hA (List.sum_nonneg hns))
      (mul_le_mul_of_nonneg_left hsum hA) hT
  have h4 : (A * T).tdiv T = A := mul_tdiv_cancel_of_nonneg A T hA hT
  omega

theorem fulfillPartial_of_zero (req : BookRequest) (h0 : req.quantityFulfilled = 0)
    (hq : 0 < req.quantityRequested) : req.fulfillPartial 0 = req := by
  obtain ⟨rid, isbn, qreq, qful, prio, st⟩ := req
  simp only at h0 hq
  subst h0
  simp [BookRequest.fulfillPartial, not_le.mpr hq]

theorem allocateBooks_success (inv : BookInventory) (isbn : String) (q : Int)
    (b : Book) (S : Int) (hlk : stockLookup inv.stock isbn = some (b, S))
    (h1 : 0 < q) (h2 : q < 1000000) (hSq : q ≤ S) :
    inv.allocateBooks isbn q =
      (true, { stock := stockUpdate inv.stock isbn (fun x => x - q)
               transactionLog := inv.transactionLog ++ [⟨isbn, q, "ALLOCATE"⟩] }) := by
  rw [BookInventory.allocateBooks, isValidQuantity_eq_true h1 h2]
  simp only [Bool.not_true, Bool.false_eq_true, if_false]
  rw [hlk]
  dsimp only
  rw [if_neg (not_lt.mpr hSq)]

theorem getReq_inv_some (st : DistState) (i r : Nat) (req : BookRequest)
    (h : st.getReq i r = some req) :
    ∃ inst, st.insts[i]? = some inst ∧ inst.requests[r]? = some req := by
  rw [DistState.getReq] at h
  cases hg : st.insts[i]? with
  | none => rw [hg] at h; cases h
  | some inst =>
    rw [hg] at h
    exact ⟨inst, rfl, h⟩

end GovBooks


namespace GovBooks

theorem foldl_needStep_exact (t : Nat) (B : String) (A T : Int) (hT : 0 < T) (hA : 0 ≤ A) :
    ∀ (items : List (Nat × Nat × Int)) (st : DistState),
      (items.map (fun x => (x.1, x.2.1))).Nodup →
      (∀ x ∈ items, ∃ req, st.getReq x.1 x.2.1 = some req ∧
          req.quantityFulfilled = 0 ∧ req.quantityRequested = x.2.2 ∧
          0 < x.2.2 ∧ x.2.2 < 1000000) →
      ∀ (b : Book) (S : Int), stockLookup st.inv.stock B = some (b, S) →
      (items.map (fun x => min x.2.2 ((A * x.2.2).tdiv T))).sum ≤ S →
      (∀ x ∈ items,
          (items.foldl (needStep t B A T) st).getReq x.1 x.2.1 =
            (st.getReq x.1 x.2.1).map
              (fun req => req.fulfillPartial (min x.2.2 ((A * x.2.2).tdiv T))))
      ∧ (∀ i' r', (∀ x ∈ items, ¬(i' = x.1 ∧ r' = x.2.1)) →
          (items.foldl (needStep t B A T) st).getReq i' r' = st.getReq i' r')
      ∧ ∃ b2, stockLookup (items.foldl (needStep t B A T) st).inv.stock B =
          some (b2, S - (items.map (fun x => min x.2.2 ((A * x.2.2).tdiv T))).sum) := by
  intro items
  induction items with
  | nil =>
    intro st _ _ b S hlk _
    refine ⟨by simp, fun _ _ _ => rfl, ⟨b, ?_⟩⟩
    simpa using hlk
  | cons x xs ih =>
    intro st hnd hitems b S hlk hsum
    obtain ⟨i, r, n⟩ := x
    simp only [List.map_cons, List.nodup_cons, List.sum_cons] at hnd hsum
    obtain ⟨hxk, hnd2⟩ := hnd
    obtain ⟨req, hgreq, hful, hreqd, hn1, hn2⟩ := hitems _ (List.mem_cons_self _ _)
    simp only at hgreq hful hreqd hn1 hn2
    have hdivnn : 0 ≤ (A * n).tdiv T := Int.tdiv_nonneg (mul_nonneg hA (le_of_lt hn1)) (le_of_lt hT)
    have hal0 : 0 ≤ min n ((A * n).tdiv T) := le_min (le_of_lt hn1) hdivnn
    have haln : min n ((A * n).tdiv T) ≤ n := min_le_left _ _
    have htail0 : 0 ≤ (xs.map (fun x => min x.2.2 ((A * x.2.2).tdiv T))).sum := by
      apply List.sum_nonneg
      intro v hv
      rcases List.mem_map.mp hv with ⟨y, hy, rfl⟩
      obtain ⟨_, _, _, _, hy1, _⟩ := hitems y (List.mem_cons_of_mem _ hy)
      exact le_min (le_of_lt hy1)
        (Int.tdiv_nonneg (mul_nonneg hA (le_of_lt hy1)) (le_of_lt hT))
    have hheadkey : ∀ y ∈ xs, ¬(i = y.1 ∧ r = y.2.1) := by
      rintro y hy ⟨h1, h2⟩
      exact hxk (List.mem_map.mpr ⟨y, hy, by simp [h1.symm, h2.symm]⟩)
    have hheadkey2 : ∀ y ∈ xs, ¬(y.1 = i ∧ y.2.1 = r) :=
      fun y hy hk => hheadkey y hy ⟨hk.1.symm, hk.2.symm⟩
    rw [List.foldl_cons]
    simp only [List.map_cons, List.sum_cons]
    by_cases hpos : 0 < min n ((A * n).tdiv T)
    · -- successful allocation of the head item
      have hallt : min n ((A * n).tdiv T) < 1000000 := lt_of_le_of_lt haln hn2
      have halS : min n ((A * n).tdiv T) ≤ S := by omega
      have halloc := allocateBooks_success st.inv B (min n ((A * n).tdiv T)) b S hlk hpos hallt halS
      obtain ⟨inst, hgi, hgr⟩ := getReq_inv_some st i r req hgreq
      have hstep : needStep t B A T st (i, r, n) =
          { ((({ st with inv := (st.inv.allocateBooks B (min n ((A * n).tdiv T))).2 }).setInst i
              (fun j => j.receiveBooks B (min n ((A * n).tdiv T)))).setReq i r
              (fun q => q.fulfillPartial (min n ((A * n).tdiv T)))) with
            lm := st.lm.issueBookLoan B inst.institutionId (min n ((A * n).tdiv T)) t } := by
        rw [needStep_eq]
        dsimp only
        rw [if_pos hT, if_pos hpos, hgi]
        rw [halloc]
        rfl
      rw [hstep]
      set stR := { ((({ st with inv := (st.inv.allocateBooks B (min n ((A * n).tdiv T))).2 }).setInst i
              (fun j => j.receiveBooks B (min n ((A * n).tdiv T)))).setReq i r
              (fun q => q.fulfillPartial (min n ((A * n).tdiv T)))) with
            lm := st.lm.issueBookLoan B inst.institutionId (min n ((A * n).tdiv T)) t } with hstR
      have hinvR : stR.inv = (st.inv.allocateBooks B (min n ((A * n).tdiv T))).2 := rfl
      have hlkR : stockLookup stR.inv.stock B = some (b, S - min n ((A * n).tdiv T)) := by
        rw [hinvR, halloc]
        dsimp only
        rw [stockLookup_stockUpdate_self, hlk]
        rfl
      have hframeR : ∀ i' r', ¬(i' = i ∧ r' = r) → stR.getReq i' r' = st.getReq i' r' := by
        intro i' r' hk
        rw [hstR]
        rw [getReq_set_lm, getReq_setReq, if_neg hk, getReq_setInst_receive, getReq_set_inv]
      have hselfR : stR.getReq i r =
          some (req.fulfillPartial (min n ((A * n).tdiv T))) := by
        rw [hstR]
        rw [getReq_set_lm, getReq_setReq, if_pos ⟨rfl, rfl⟩, getReq_setInst_receive,
          getReq_set_inv, hgreq]
        rfl
      have hitems2 : ∀ y ∈ xs, ∃ req2, stR.getReq y.1 y.2.1 = some req2 ∧
          req2.quantityFulfilled = 0 ∧ req2.quantityRequested = y.2.2 ∧
          0 < y.2.2 ∧ y.2.2 < 1000000 := by
        intro y hy
        obtain ⟨req2, hg2, hrest⟩ := hitems y (List.mem_cons_of_mem _ hy)
        refine ⟨req2, ?_, hrest⟩
        rw [hframeR y.1 y.2.1 (hheadkey2 y hy)]
        exact hg2
      obtain ⟨hc1, hc2, hc3⟩ := ih stR hnd2 hitems2 b (S - min n ((A * n).tdiv T)) hlkR
        (by omega)
      refine ⟨?_, ?_, ?_⟩
      · intro y hy
        rcases List.mem_cons.mp hy with hyx | hy2
        · subst hyx
          rw [hc2 i r hheadkey, hselfR, hgreq]
          rfl
        · rw [hc1 y hy2, hframeR y.1 y.2.1 (hheadkey2 y hy2)]
      · intro i' r' hall
        rw [hc2 i' r' (fun y hy => hall y (List.mem_cons_of_mem _ hy))]
        exact hframeR i' r' (hall _ (List.mem_cons_self _ _))
      · obtain ⟨b2, hb2⟩ := hc3
        refine ⟨b2, ?_⟩
        rw [hb2, sub_sub]
    · -- head allocation is zero: the step is a no-op
      have hale : min n ((A * n).tdiv T) = 0 := le_antisymm (not_lt.mp hpos) hal0
      have hstep : needStep t B A T st (i, r, n) = st := by
        rw [needStep_eq]
        dsimp only
        rw [if_pos hT, if_neg hpos]
      rw [hstep]
      obtain ⟨hc1, hc2, hc3⟩ := ih st hnd2
        (fun y hy => hitems y (List.mem_cons_of_mem _ hy)) b S hlk (by omega)
      refine ⟨?_, ?_, ?_⟩
      · intro y hy
        rcases List.mem_cons.mp hy with hyx | hy2
        · subst hyx
          rw [hc2 i r hheadkey, hgreq]
          simp only [Option.map]
          rw [hale, fulfillPartial_of_zero req hful (by omega)]
        · exact hc1 y hy2
      · intro i' r' hall
        exact hc2 i' r' (fun y hy => hall y (List.mem_cons_of_mem _ hy))
      · obtain ⟨b2, hb2⟩ := hc3
        refine ⟨b2, ?_⟩
        rw [hb2, hale, zero_add]

end GovBooks


namespace GovBooks

theorem foldl_equalStep_exact (t : Nat) (B : String) (p : Int) (hp : 0 < p) :
    ∀ (items : List (Nat × Nat × Int)) (st : DistState),
      (items.map (fun x => (x.1, x.2.1))).Nodup →
      (∀ x ∈ items, ∃ req, st.getReq x.1 x.2.1 = some req ∧
          req.quantityFulfilled = 0 ∧ req.quantityRequested = x.2.2 ∧
          0 < x.2.2 ∧ x.2.2 < 1000000) →
      ∀ (b : Book) (S : Int), stockLookup st.inv.stock B = some (b, S) →
      (items.map (fun x => min x.2.2 p)).sum ≤ S →
      (∀ x ∈ items,
          (items.foldl (equalStep t B p) st).getReq x.1 x.2.1 =
            (st.getReq x.1 x.2.1).map
              (fun req => req.fulfillPartial (min x.2.2 p)))
      ∧ (∀ i' r', (∀ x ∈ items, ¬(i' = x.1 ∧ r' = x.2.1)) →
          (items.foldl (equalStep t B p) st).getReq i' r' = st.getReq i' r')
      ∧ ∃ b2, stockLookup (items.foldl (equalStep t B p) st).inv.stock B =
          some (b2, S - (items.map (fun x => min x.2.2 p)).sum) := by
  intro items
  induction items with
  | nil =>
    intro st _ _ b S hlk _
    refine ⟨by simp, fun _ _ _ => rfl, ⟨b, ?_⟩⟩
    simpa using hlk
  | cons x xs ih =>
    intro st hnd hitems b S hlk hsum
    obtain ⟨i, r, n⟩ := x
    simp only [List.map_cons, List.nodup_cons, List.sum_cons] at hnd hsum
    obtain ⟨hxk, hnd2⟩ := hnd
    obtain ⟨req, hgreq, hful, hreqd, hn1, hn2⟩ := hitems _ (List.mem_cons_self _ _)
    simp only at hgreq hful hreqd hn1 hn2
    have hrem : req.getRemainingQuantity = n := by
      simp [BookRequest.getRemainingQuantity, hful, hreqd]
    have hal1 : 0 < min n p := lt_min hn1 hp
    have haln : min n p ≤ n := min_le_left _ _
    have htail0 : 0 ≤ (xs.map (fun x => min x.2.2 p)).sum := by
      apply List.sum_nonneg
      intro v hv
      rcases List.mem_map.mp hv with ⟨y, hy, rfl⟩
      obtain ⟨_, _, _, _, hy1, _⟩ := hitems y (List.mem_cons_of_mem _ hy)
      exact le_min (le_of_lt hy1) (le_of_lt hp)
    have hheadkey : ∀ y ∈ xs, ¬(i = y.1 ∧ r = y.2.1) := by
      rintro y hy ⟨h1, h2⟩
      exact hxk (List.mem_map.mpr ⟨y, hy, by simp [h1.symm, h2.symm]⟩)
    have hheadkey2 : ∀ y ∈ xs, ¬(y.1 = i ∧ y.2.1 = r) :=
      fun y hy hk => hheadkey y hy ⟨hk.1.symm, hk.2.symm⟩
    rw [List.foldl_cons]
    simp only [List.map_cons, List.sum_cons]
    have hallt : min n p < 1000000 := lt_of_le_of_lt haln hn2
    have halS : min n p ≤ S := by omega
    have halloc := allocateBooks_success st.inv B (min n p) b S hlk hal1 hallt halS
    obtain ⟨inst, hgi, hgr⟩ := getReq_inv_some st i r req hgreq
    have hstep : equalStep t B p st (i, r, n) =
        { ((({ st with inv := (st.inv.allocateBooks B (min n p)).2 }).setInst i
            (fun j => j.receiveBooks B (min n p))).setReq i r
            (fun q => q.fulfillPartial (min n p))) with
          lm := st.lm.issueBookLoan B inst.institutionId (min n p) t } := by
      rw [equalStep_eq, hgi]
      dsimp only
      rw [hgr]
      dsimp only
      rw [hrem, min_comm p n]
      rw [if_pos hal1, halloc]
      rfl
    rw [hstep]
    set stR := { ((({ st with inv := (st.inv.allocateBooks B (min n p)).2 }).setInst i
            (fun j => j.receiveBooks B (min n p))).setReq i r
            (fun q => q.fulfillPartial (min n p))) with
          lm := st.lm.issueBookLoan B inst.institutionId (min n p) t } with hstR
    have hinvR : stR.inv = (st.inv.allocateBooks B (min n p)).2 := rfl
    have hlkR : stockLookup stR.inv.stock B = some (b, S - min n p) := by
      rw [hinvR, halloc]
      dsimp only
      rw [stockLookup_stockUpdate_self, hlk]
      rfl
    have hframeR : ∀ i' r', ¬(i' = i ∧ r' = r) → stR.getReq i' r' = st.getReq i' r' := by
      intro i' r' hk
      rw [hstR]
      rw [getReq_set_lm, getReq_setReq, if_neg hk, getReq_setInst_receive, getReq_set_inv]
    have hselfR : stR.getReq i r = some (req.fulfillPartial (min n p)) := by
      rw [hstR]
      rw [getReq_set_lm, getReq_setReq, if_pos ⟨rfl, rfl⟩, getReq_setInst_receive,
        getReq_set_inv, hgreq]
      rfl
    have hitems2 : ∀ y ∈ xs, ∃ req2, stR.getReq y.1 y.2.1 = some req2 ∧
        req2.quantityFulfilled = 0 ∧ req2.quantityRequested = y.2.2 ∧
        0 < y.2.2 ∧ y.2.2 < 1000000 := by
      intro y hy
      obtain ⟨req2, hg2, hrest⟩ := hitems y (List.mem_cons_of_mem _ hy)
      refine ⟨req2, ?_, hrest⟩
      rw [hframeR y.1 y.2.1 (hheadkey2 y hy)]
      exact hg2
    obtain ⟨hc1, hc2, hc3⟩ := ih stR hnd2 hitems2 b (S - min n p) hlkR (by omega)
    refine ⟨?_, ?_, ?_⟩
    · intro y hy
      rcases List.mem_cons.mp hy with hyx | hy2
      · subst hyx
        rw [hc2 i r hheadkey, hselfR, hgreq]
        rfl
      · rw [hc1 y hy2, hframeR y.1 y.2.1 (hheadkey2 y hy2)]
    · intro i' r' hall
      rw [hc2 i' r' (fun y hy => hall y (List.mem_cons_of_mem _ hy))]
      exact hframeR i' r' (hall _ (List.mem_cons_self _ _))
    · obtain ⟨b2, hb2⟩ := hc3
      refine ⟨b2, ?_⟩
      rw [hb2, sub_sub]

end GovBooks


namespace GovBooks

theorem needyReqItems_scn (B : String) (i : Nat) :
    ∀ (needs : List Int) (r0 : Nat), (∀ n ∈ needs, 0 < n) →
      needyReqItems i r0 (needs.map (fun n => pendingReq "" B n Priority.MEDIUM)) =
        triplesOf B i r0 needs := by
  intro needs
  induction needs with
  | nil => intro r0 _; rfl
  | cons n rest ih =>
    intro r0 hpos
    simp only [List.map_cons]
    rw [needyReqItems, triplesOf]
    rw [ih (r0 + 1) (fun m hm => hpos m (List.mem_cons_of_mem _ hm))]
    have hn : 0 < n := hpos n (List.mem_cons_self _ _)
    have hcond : ((pendingReq "" B n Priority.MEDIUM).status.isPending &&
        decide (0 < (pendingReq "" B n Priority.MEDIUM).getRemainingQuantity)) = true := by
      simp [pendingReq, RequestStatus.isPending, BookRequest.getRemainingQuantity, hn]
    rw [if_pos hcond]
    simp [pendingReq, BookRequest.getRemainingQuantity]

theorem needyItems_scn (B : String) :
    ∀ (specs : List (String × List Int)) (i0 : Nat),
      (∀ p ∈ specs, ∀ n ∈ p.2, 0 < n) →
      needyItems i0 (scnInsts B specs) = scnTriples B i0 specs := by
  intro specs
  induction specs with
  | nil => intro i0 _; rfl
  | cons p rest ih =>
    intro i0 hpos
    simp only [scnInsts, List.map_cons]
    rw [needyItems, scnTriples]
    rw [← scnInsts]
    rw [ih (i0 + 1) (fun q hq => hpos q (List.mem_cons_of_mem _ hq))]
    rw [needyReqItems_scn B i0 p.2 0 (hpos p (List.mem_cons_self _ _))]

theorem mem_triplesOf {x : String × Nat × Nat × Int} (B : String) (i : Nat) :
    ∀ (needs : List Int) (r0 : Nat), x ∈ triplesOf B i r0 needs →
      x.1 = B ∧ x.2.1 = i ∧ r0 ≤ x.2.2.1 ∧ needs[x.2.2.1 - r0]? = some x.2.2.2 := by
  intro needs
  induction needs with
  | nil => intro r0 h; simp [triplesOf] at h
  | cons n rest ih =>
    intro r0 h
    rw [triplesOf] at h
    rcases List.mem_cons.mp h with h1 | h2
    · subst h1
      refine ⟨rfl, rfl, le_refl _, ?_⟩
      simp
    · obtain ⟨hB, hi, hge, hget⟩ := ih (r0 + 1) h2
      refine ⟨hB, hi, by omega, ?_⟩
      have hidx : x.2.2.1 - r0 = (x.2.2.1 - (r0 + 1)) + 1 := by omega
      rw [hidx, List.getElem?_cons_succ]
      exact hget

theorem mem_scnTriples {x : String × Nat × Nat × Int} (B : String) :
    ∀ (specs : List (String × List Int)) (i0 : Nat), x ∈ scnTriples B i0 specs →
      x.1 = B ∧ i0 ≤ x.2.1 ∧ ∃ p, specs[x.2.1 - i0]? = some p ∧
        p.2[x.2.2.1]? = some x.2.2.2 := by
  intro specs
  induction specs with
  | nil => intro i0 h; simp [scnTriples] at h
  | cons p rest ih =>
    intro i0 h
    rw [scnTriples] at h
    rcases List.mem_append.mp h with h1 | h2
    · obtain ⟨hB, hi, _, hget⟩ := mem_triplesOf B i0 p.2 0 h1
      refine ⟨hB, le_of_eq hi.symm, p, ?_, by simpa using hget⟩
      have hidx : x.2.1 - i0 = 0 := by omega
      rw [hidx]
      simp
    · obtain ⟨hB, hge, q, hget, hget2⟩ := ih (i0 + 1) h2
      refine ⟨hB, by omega, q, ?_, hget2⟩
      have hidx : x.2.1 - i0 = (x.2.1 - (i0 + 1)) + 1 := by omega
      rw [hidx, List.getElem?_cons_succ]
      exact hget

theorem mem_scnNeeds_of_mem_scnTriples {x : String × Nat × Nat × Int} (B : String)
    (specs : List (String × List Int)) (h : x ∈ scnTriples B 0 specs) :
    x.2.2.2 ∈ scnNeeds specs := by
  obtain ⟨_, _, p, hget, hget2⟩ := mem_scnTriples B specs 0 h
  rw [scnNeeds]
  have hp : p ∈ specs := List.getElem?_mem hget
  have hn : x.2.2.2 ∈ p.2 := List.getElem?_mem hget2
  exact List.mem_flatten.mpr ⟨p.2, List.mem_map.mpr ⟨p, hp, rfl⟩, hn⟩

theorem triplesOf_needs (B : String) (i : Nat) :
    ∀ (needs : List Int) (r0 : Nat),
      (triplesOf B i r0 needs).map (fun x => x.2.2.2) = needs := by
  intro needs
  induction needs with
  | nil => intro r0; rfl
  | cons n rest ih =>
    intro r0
    rw [triplesOf, List.map_cons, ih (r0 + 1)]

theorem scnTriples_needs (B : String) :
    ∀ (specs : List (String × List Int)) (i0 : Nat),
      (scnTriples B i0 specs).map (fun x => x.2.2.2) = scnNeeds specs := by
  intro specs
  induction specs with
  | nil => intro i0; rfl
  | cons p rest ih =>
    intro i0
    rw [scnTriples, List.map_append, ih (i0 + 1), triplesOf_needs]
    rw [scnNeeds, scnNeeds, List.map_cons, List.flatten_cons]

theorem foldl_insertGrouped_const {β : Type} (B : String) :
    ∀ (L : List (String × β)) (acc : List β), (∀ kv ∈ L, kv.1 = B) →
      L.foldl (fun m kv => insertGrouped m kv.1 kv.2) [(B, acc)] =
        [(B, acc ++ L.map Prod.snd)] := by
  intro L
  induction L with
  | nil => intro acc _; simp
  | cons kv rest ih =>
    intro acc hall
    rw [List.foldl_cons]
    have hB : kv.1 = B := hall kv (List.mem_cons_self _ _)
    have h1 : insertGrouped [(B, acc)] kv.1 kv.2 = [(B, acc ++ [kv.2])] := by
      rw [insertGrouped, if_pos hB.symm]
    rw [h1, ih (acc ++ [kv.2]) (fun q hq => hall q (List.mem_cons_of_mem _ hq))]
    simp

theorem buildNeedMap_scn (B : String) (specs : List (String × List Int))
    (hpos : ∀ p ∈ specs, ∀ n ∈ p.2, 0 < n)
    (hne : scnTriples B 0 specs ≠ []) :
    buildNeedMap (scnInsts B specs) = [(B, (scnTriples B 0 specs).map Prod.snd)] := by
  rw [buildNeedMap, needyItems_scn B specs 0 hpos]
  cases hL : scnTriples B 0 specs with
  | nil => exact absurd hL hne
  | cons y L2 =>
    rw [List.foldl_cons]
    have hyB : y.1 = B :=
      (mem_scnTriples B specs 0 (hL ▸ List.mem_cons_self y L2)).1
    have h1 : insertGrouped [] y.1 y.2 = [(B, [y.2])] := by
      rw [insertGrouped, hyB]
    rw [h1]
    have hall : ∀ kv ∈ L2, kv.1 = B := by
      intro kv hkv
      exact (mem_scnTriples B specs 0 (hL ▸ List.mem_cons_of_mem y hkv)).1
    rw [foldl_insertGrouped_const B L2 [y.2] hall]
    simp

end GovBooks

namespace GovBooks

theorem needIsbn_eq (t : Nat) (st : DistState) (isbn : String)
    (items : List (Nat × Nat × Int)) :
    needIsbn t st (isbn, items) =
      (if st.inv.getAvailableQuantity isbn ≤ 0 then st
       else items.foldl
        (needStep t isbn (st.inv.getAvailableQuantity isbn)
          (items.foldl (fun s x => s + x.2.2) 0)) st) := by
  unfold needIsbn
  simp only []

theorem equalIsbn_eq (t : Nat) (st : DistState) (isbn : String)
    (items : List (Nat × Nat × Int)) :
    equalIsbn t st (isbn, items) =
      (if st.inv.getAvailableQuantity isbn ≤ 0 || items.isEmpty then st
       else if (st.inv.getAvailableQuantity isbn).tdiv (items.length : Int) ≤ 0 then st
       else items.foldl
        (equalStep t isbn ((st.inv.getAvailableQuantity isbn).tdiv (items.length : Int))) st) := by
  unfold equalIsbn
  simp only []

theorem getAvail_scnState (B : String) (bk : Book) (specs : List (String × List Int)) (A : Int) :
    (scnState B bk specs A).inv.getAvailableQuantity B = A := by
  simp [scnState, BookInventory.getAvailableQuantity, stockLookup]

theorem stockLookup_scnState (B : String) (bk : Book) (specs : List (String × List Int)) (A : Int) :
    stockLookup (scnState B bk specs A).inv.stock B = some (bk, A) := by
  simp [scnState, stockLookup]

theorem getReq_scnState (B : String) (bk : Book) (specs : List (String × List Int))
    (A : Int) (i r : Nat) (p : String × List Int) (n : Int)
    (hp : specs[i]? = some p) (hn : p.2[r]? = some n) :
    (scnState B bk specs A).getReq i r = some (pendingReq "" B n Priority.MEDIUM) := by
  rw [DistState.getReq]
  have hinsts : (scnState B bk specs A).insts = scnInsts B specs := rfl
  rw [hinsts, scnInsts, List.getElem?_map, hp, Option.map_some']
  simp only
  rw [List.getElem?_map, hn, Option.map_some']

theorem foldl_add_eq_sum :
    ∀ (L : List (Nat × Nat × Int)) (c : Int),
      L.foldl (fun s x => s + x.2.2) c = c + (L.map (fun x => x.2.2)).sum := by
  intro L
  induction L with
  | nil => intro c; simp
  | cons x xs ih =>
    intro c
    rw [List.foldl_cons, ih, List.map_cons, List.sum_cons]
    ring

theorem scn_payload_needs (B : String) (specs : List (String × List Int)) :
    ((scnTriples B 0 specs).map Prod.snd).map (fun x => x.2.2) = scnNeeds specs := by
  rw [List.map_map, ← scnTriples_needs B specs 0]
  rfl

theorem scn_payload_length (B : String) (specs : List (String × List Int)) :
    ((scnTriples B 0 specs).map Prod.snd).length = (scnNeeds specs).length := by
  rw [List.length_map, ← scnTriples_needs B specs 0, List.length_map]

theorem scn_payload_map_need (B : String) (specs : List (String × List Int)) (A T : Int) :
    ((scnTriples B 0 specs).map Prod.snd).map (fun x => min x.2.2 ((A * x.2.2).tdiv T)) =
      (scnNeeds specs).map (fun n => min n ((A * n).tdiv T)) := by
  rw [List.map_map, ← scnTriples_needs B specs 0, List.map_map]
  rfl

theorem scn_payload_map_equal (B : String) (specs : List (String × List Int)) (p : Int) :
    ((scnTriples B 0 specs).map Prod.snd).map (fun x => min x.2.2 p) =
      (scnNeeds specs).map (fun n => min n p) := by
  rw [List.map_map, ← scnTriples_needs B specs 0, List.map_map]
  rfl

theorem scn_payload_keys_nodup (B : String) (specs : List (String × List Int))
    (hpos : ∀ p ∈ specs, ∀ n ∈ p.2, 0 < n) :
    (((scnTriples B 0 specs).map Prod.snd).map (fun x => (x.1, x.2.1))).Nodup := by
  rw [← needyItems_scn B specs 0 hpos, List.map_map]
  exact needyItems_keys_nodup (scnInsts B specs) 0

theorem scn_payload_items (B : String) (bk : Book) (specs : List (String × List Int)) (A : Int)
    (hpos : ∀ p ∈ specs, ∀ n ∈ p.2, 0 < n ∧ n < 1000000) :
    ∀ x ∈ (scnTriples B 0 specs).map Prod.snd,
      ∃ req, (scnState B bk specs A).getReq x.1 x.2.1 = some req ∧
        req.quantityFulfilled = 0 ∧ req.quantityRequested = x.2.2 ∧
        0 < x.2.2 ∧ x.2.2 < 1000000 := by
  intro x hx
  rcases List.mem_map.mp hx with ⟨y, hy, rfl⟩
  obtain ⟨hB, _, p, hget, hget2⟩ := mem_scnTriples B specs 0 hy
  rw [Nat.sub_zero] at hget
  have hp : p ∈ specs := List.getElem?_mem hget
  have hnmem : y.2.2.2 ∈ p.2 := List.getElem?_mem hget2
  obtain ⟨h1, h2⟩ := hpos p hp _ hnmem
  exact ⟨pendingReq "" B y.2.2.2 Priority.MEDIUM,
    getReq_scnState B bk specs A y.2.1 y.2.2.1 p y.2.2.2 hget hget2,
    rfl, rfl, h1, h2⟩

theorem scnNeeds_pos (specs : List (String × List Int))
    (hpos : ∀ p ∈ specs, ∀ n ∈ p.2, 0 < n) :
    ∀ n ∈ scnNeeds specs, 0 < n := by
  intro n hn
  rw [scnNeeds] at hn
  rcases List.mem_flatten.mp hn with ⟨l, hl, hnl⟩
  rcases List.mem_map.mp hl with ⟨p, hp, rfl⟩
  exact hpos p hp n hnl

theorem mul_tdiv_le (A k : Int) (hA : 0 ≤ A) (hk : 0 < k) : k * A.tdiv k ≤ A := by
  obtain ⟨a, rfl⟩ := Int.eq_ofNat_of_zero_le hA
  obtain ⟨kn, rfl⟩ := Int.eq_ofNat_of_zero_le (le_of_lt hk)
  rw [tdiv_coe]
  have h : kn * (a / kn) ≤ a := by
    rw [Nat.mul_comm]
    exact Nat.div_mul_le_self a kn
  exact_mod_cast h

theorem sum_min_tdiv_le (A : Int) (ns : List Int) (hA : 0 ≤ A) (hne : ns ≠ []) :
    (ns.map (fun n => min n (A.tdiv (ns.length : Int)))).sum ≤ A := by
  have hkpos : 0 < ((ns.length : Nat) : Int) := by
    exact_mod_cast List.length_pos.mpr hne
  have h1 : (ns.map (fun n => min n (A.tdiv (ns.length : Int)))).sum ≤
      (ns.map (fun _ => A.tdiv (ns.length : Int))).sum :=
    List.sum_le_sum (fun n _ => min_le_right _ _)
  have h2 : (ns.map (fun _ => A.tdiv (ns.length : Int))).sum =
      ((ns.length : Nat) : Int) * A.tdiv (ns.length : Int) := by
    rw [List.map_const', List.sum_replicate, nsmul_eq_mul]
  have h3 := mul_tdiv_le A (ns.length : Int) hA hkpos
  omega

end GovBooks

namespace GovBooks

theorem equal_zero_share_case (B : String) (bk : Book) (specs : List (String × List Int))
    (A k : Int) (hA : 0 ≤ A)
    (hpos : ∀ p ∈ specs, ∀ n ∈ p.2, 0 < n ∧ n < 1000000)
    (hsh : A.tdiv k = 0) :
    (∀ x ∈ scnTriples B 0 specs,
        (scnState B bk specs A).getReq x.2.1 x.2.2.1 =
          some ((pendingReq "" B x.2.2.2 Priority.MEDIUM).fulfillPartial
            (equalShare A k x.2.2.2)))
    ∧ ((scnNeeds specs).map (fun n => equalShare A k n)).sum ≤ A
    ∧ (scnState B bk specs A).inv.getAvailableQuantity B =
        A - ((scnNeeds specs).map (fun n => equalShare A k n)).sum := by
  have hpos' : ∀ p ∈ specs, ∀ n ∈ p.2, 0 < n := fun p hp n hn => (hpos p hp n hn).1
  have hshz : ∀ n : Int, 0 ≤ n → equalShare A k n = 0 := by
    intro n hn
    rw [equalShare, hsh]
    exact min_eq_right hn
  have hzero : ((scnNeeds specs).map (fun n => equalShare A k n)).sum = 0 := by
    apply List.sum_eq_zero
    intro v hv
    rcases List.mem_map.mp hv with ⟨n, hn, rfl⟩
    exact hshz n (le_of_lt (scnNeeds_pos specs hpos' n hn))
  refine ⟨?_, ?_, ?_⟩
  · intro x hx
    obtain ⟨hB, _, p, hget, hget2⟩ := mem_scnTriples B specs 0 hx
    rw [Nat.sub_zero] at hget
    have h2 := getReq_scnState B bk specs A x.2.1 x.2.2.1 p x.2.2.2 hget hget2
    have hnp : 0 < x.2.2.2 :=
      (hpos p (List.getElem?_mem hget) _ (List.getElem?_mem hget2)).1
    rw [h2, hshz x.2.2.2 (le_of_lt hnp),
      fulfillPartial_of_zero (pendingReq "" B x.2.2.2 Priority.MEDIUM) rfl hnp]
  · rw [hzero]
    exact hA
  · rw [getAvail_scnState, hzero]
    ring

/-- Claim C7 (amended): one need-based cycle on a scenario with one stock
entry of `A > 0` copies of isbn `B` and arbitrarily many institutions, each
holding arbitrarily many fresh pending requests on `B`, gives every pending
request exactly `min(remaining, (A * remaining) / T)` copies (C++ truncating
division), where `T` sums the remaining quantities over all pending requests
of all institutions: an institution with several pending requests gets the
formula applied per request, not once to its aggregate need.  The allocations
sum to at most `A`, the rounding shortfall is not redistributed within the
cycle, and the stock entry drops by exactly the allocated sum.  The range
hypothesis keeps `availableQuantity * need` within a C++ 32-bit int. -/
theorem claim7_need_proportional_amended (B : String) (bk : Book)
    (specs : List (String × List Int)) (A : Int) (t : Nat)
    (hA : 0 < A)
    (hpos : ∀ p ∈ specs, ∀ n ∈ p.2, 0 < n ∧ n < 1000000)
    (hrange : A * (scnNeeds specs).sum ≤ 2147483647) :
    (∀ x ∈ scnTriples B 0 specs,
        (needBasedDistribute t (scnState B bk specs A)).getReq x.2.1 x.2.2.1 =
          some ((pendingReq "" B x.2.2.2 Priority.MEDIUM).fulfillPartial
            (propShare A (scnNeeds specs).sum x.2.2.2)))
    ∧ ((scnNeeds specs).map (fun n => propShare A (scnNeeds specs).sum n)).sum ≤ A
    ∧ (needBasedDistribute t (scnState B bk specs A)).inv.getAvailableQuantity B =
        A - ((scnNeeds specs).map (fun n => propShare A (scnNeeds specs).sum n)).sum := by
  have hpos' : ∀ p ∈ specs, ∀ n ∈ p.2, 0 < n := fun p hp n hn => (hpos p hp n hn).1
  by_cases hL : scnTriples B 0 specs = []
  · have hneeds : scnNeeds specs = [] := by
      rw [← scnTriples_needs B specs 0, hL]
      rfl
    have hbm : buildNeedMap (scnInsts B specs) = [] := by
      rw [buildNeedMap, needyItems_scn B specs 0 hpos', hL]
      rfl
    have hid : needBasedDistribute t (scnState B bk specs A) = scnState B bk specs A := by
      rw [needBasedDistribute]
      have hi : (scnState B bk specs A).insts = scnInsts B specs := rfl
      rw [hi, hbm]
      rfl
    refine ⟨?_, ?_, ?_⟩
    · intro x hx
      rw [hL] at hx
      cases hx
    · rw [hneeds]
      simp only [List.map_nil, List.sum_nil]
      exact le_of_lt hA
    · rw [hid, getAvail_scnState, hneeds]
      simp
  · have hneeds_ne : scnNeeds specs ≠ [] := by
      intro hc
      apply hL
      have h := scnTriples_needs B specs 0
      rw [hc] at h
      exact List.map_eq_nil_iff.mp h
    have hTpos : 0 < (scnNeeds specs).sum :=
      List.sum_pos _ (scnNeeds_pos specs hpos') hneeds_ne
    have hbm := buildNeedMap_scn B specs hpos' hL
    have hstep1 : needBasedDistribute t (scnState B bk specs A) =
        needIsbn t (scnState B bk specs A) (B, (scnTriples B 0 specs).map Prod.snd) := by
      rw [needBasedDistribute]
      have hi : (scnState B bk specs A).insts = scnInsts B specs := rfl
      rw [hi, hbm, List.foldl_cons, List.foldl_nil]
    have htot : ((scnTriples B 0 specs).map Prod.snd).foldl (fun s x => s + x.2.2) 0 =
        (scnNeeds specs).sum := by
      rw [foldl_add_eq_sum, zero_add, scn_payload_needs]
    rw [hstep1, needIsbn_eq, getAvail_scnState, htot, if_neg (not_le.mpr hA)]
    have hsum : (((scnTriples B 0 specs).map Prod.snd).map
        (fun x => min x.2.2 ((A * x.2.2).tdiv (scnNeeds specs).sum))).sum ≤ A := by
      rw [scn_payload_map_need]
      have h := sum_propShare_le A (scnNeeds specs).sum (scnNeeds specs)
        (le_of_lt hA) hTpos (le_refl _)
        (fun n hn => le_of_lt (scnNeeds_pos specs hpos' n hn))
      simpa only [propShare] using h
    have hmain := foldl_needStep_exact t B A (scnNeeds specs).sum hTpos (le_of_lt hA)
      ((scnTriples B 0 specs).map Prod.snd) (scnState B bk specs A)
      (scn_payload_keys_nodup B specs hpos')
      (scn_payload_items B bk specs A hpos)
      bk A (stockLookup_scnState B bk specs A) hsum
    obtain ⟨hc1, hc2, hc3⟩ := hmain
    refine ⟨?_, ?_, ?_⟩
    · intro x hx
      obtain ⟨hB, _, p, hget, hget2⟩ := mem_scnTriples B specs 0 hx
      rw [Nat.sub_zero] at hget
      have hxp := List.mem_map_of_mem Prod.snd hx
      have h1 := hc1 (Prod.snd x) hxp
      have h2 := getReq_scnState B bk specs A x.2.1 x.2.2.1 p x.2.2.2 hget hget2
      rw [h1, h2, Option.map_some']
      simp only [propShare]
    · have h := sum_propShare_le A (scnNeeds specs).sum (scnNeeds specs)
        (le_of_lt hA) hTpos (le_refl _)
        (fun n hn => le_of_lt (scnNeeds_pos specs hpos' n hn))
      exact h
    · obtain ⟨b2, hb2⟩ := hc3
      have hmaps : (((scnTriples B 0 specs).map Prod.snd).map
          (fun x => min x.2.2 ((A * x.2.2).tdiv (scnNeeds specs).sum))).sum =
          ((scnNeeds specs).map (fun n => propShare A (scnNeeds specs).sum n)).sum := by
        rw [scn_payload_map_need]
        simp only [propShare]
      rw [hmaps] at hb2
      simp only [BookInventory.getAvailableQuantity]
      rw [hb2]

end GovBooks

namespace GovBooks

/-- Claim C8 (amended): one equal-distribution cycle on the same scenario
shape with `A >= 0` copies gives every pending request exactly
`min(remaining, A / k)` copies, where `k` counts pending requests with
positive remaining quantity (an institution with several such requests is
counted once per request, refuting the per-institution reading), the
allocations sum to at most `A`, and the stock entry drops by exactly the
allocated sum, stranding the remainder for the cycle. -/
theorem claim8_equal_split_amended (B : String) (bk : Book)
    (specs : List (String × List Int)) (A : Int) (t : Nat)
    (hA : 0 ≤ A)
    (hpos : ∀ p ∈ specs, ∀ n ∈ p.2, 0 < n ∧ n < 1000000) :
    (∀ x ∈ scnTriples B 0 specs,
        (equalDistribute t (scnState B bk specs A)).getReq x.2.1 x.2.2.1 =
          some ((pendingReq "" B x.2.2.2 Priority.MEDIUM).fulfillPartial
            (equalShare A ((scnNeeds specs).length : Int) x.2.2.2)))
    ∧ ((scnNeeds specs).map
        (fun n => equalShare A ((scnNeeds specs).length : Int) n)).sum ≤ A
    ∧ (equalDistribute t (scnState B bk specs A)).inv.getAvailableQuantity B =
        A - ((scnNeeds specs).map
          (fun n => equalShare A ((scnNeeds specs).length : Int) n)).sum := by
  have hpos' : ∀ p ∈ specs, ∀ n ∈ p.2, 0 < n := fun p hp n hn => (hpos p hp n hn).1
  by_cases hL : scnTriples B 0 specs = []
  · have hneeds : scnNeeds specs = [] := by
      rw [← scnTriples_needs B specs 0, hL]
      rfl
    have hbm : buildNeedMap (scnInsts B specs) = [] := by
      rw [buildNeedMap, needyItems_scn B specs 0 hpos', hL]
      rfl
    have hid : equalDistribute t (scnState B bk specs A) = scnState B bk specs A := by
      rw [equalDistribute]
      have hi : (scnState B bk specs A).insts = scnInsts B specs := rfl
      rw [hi, hbm]
      rfl
    refine ⟨?_, ?_, ?_⟩
    · intro x hx
      rw [hL] at hx
      cases hx
    · rw [hneeds]
      simp only [List.map_nil, List.sum_nil]
      exact hA
    · rw [hid, getAvail_scnState, hneeds]
      simp
  · have hneeds_ne : scnNeeds specs ≠ [] := by
      intro hc
      apply hL
      have h := scnTriples_needs B specs 0
      rw [hc] at h
      exact List.map_eq_nil_iff.mp h
    have hkpos : (0 : Int) < ((scnNeeds specs).length : Int) := by
      exact_mod_cast List.length_pos.mpr hneeds_ne
    have hbm := buildNeedMap_scn B specs hpos' hL
    have hstep1 : equalDistribute t (scnState B bk specs A) =
        equalIsbn t (scnState B bk specs A) (B, (scnTriples B 0 specs).map Prod.snd) := by
      rw [equalDistribute]
      have hi : (scnState B bk specs A).insts = scnInsts B specs := rfl
      rw [hi, hbm, List.foldl_cons, List.foldl_nil]
    have hlen : ((((scnTriples B 0 specs).map Prod.snd).length : Nat) : Int) =
        ((scnNeeds specs).length : Int) := by
      rw [scn_payload_length]
    have hpayne : ((scnTriples B 0 specs).map Prod.snd) ≠ [] := by
      intro hc
      exact hL (List.map_eq_nil_iff.mp hc)
    have hpe : ((scnTriples B 0 specs).map Prod.snd).isEmpty = false := by
      simp only [List.isEmpty_eq_false]
      exact hpayne
    rw [hstep1, equalIsbn_eq, getAvail_scnState, hlen, hpe, Bool.or_false]
    by_cases hA0 : A ≤ 0
    · have hAz : A = 0 := le_antisymm hA0 hA
      subst hAz
      rw [if_pos (by decide)]
      exact equal_zero_share_case B bk specs 0 ((scnNeeds specs).length : Int)
        le_rfl hpos (Int.zero_tdiv _)
    · have hApos : 0 < A := lt_of_not_le hA0
      rw [if_neg (by simpa using hA0)]
      by_cases hp0 : A.tdiv ((scnNeeds specs).length : Int) ≤ 0
      · rw [if_pos hp0]
        have hpz : A.tdiv ((scnNeeds specs).length : Int) = 0 :=
          le_antisymm hp0 (Int.tdiv_nonneg (le_of_lt hApos) (le_of_lt hkpos))
        exact equal_zero_share_case B bk specs A ((scnNeeds specs).length : Int)
          hA hpos hpz
      · have hppos : 0 < A.tdiv ((scnNeeds specs).length : Int) := lt_of_not_le hp0
        rw [if_neg hp0]
        have hsum : (((scnTriples B 0 specs).map Prod.snd).map
            (fun x => min x.2.2 (A.tdiv ((scnNeeds specs).length : Int)))).sum ≤ A := by
          rw [scn_payload_map_equal]
          exact sum_min_tdiv_le A (scnNeeds specs) hA hneeds_ne
        have hmain := foldl_equalStep_exact t B
          (A.tdiv ((scnNeeds specs).length : Int)) hppos
          ((scnTriples B 0 specs).map Prod.snd) (scnState B bk specs A)
          (scn_payload_keys_nodup B specs hpos')
          (scn_payload_items B bk specs A hpos)
          bk A (stockLookup_scnState B bk specs A) hsum
        obtain ⟨hc1, hc2, hc3⟩ := hmain
        refine ⟨?_, ?_, ?_⟩
        · intro x hx
          obtain ⟨hB, _, p, hget, hget2⟩ := mem_scnTriples B specs 0 hx
          rw [Nat.sub_zero] at hget
          have hxp := List.mem_map_of_mem Prod.snd hx
          have h1 := hc1 (Prod.snd x) hxp
          have h2 := getReq_scnState B bk specs A x.2.1 x.2.2.1 p x.2.2.2 hget hget2
          rw [h1, h2, Option.map_some']
          simp only [equalShare]
        · have h := sum_min_tdiv_le A (scnNeeds specs) hA hneeds_ne
          simpa only [equalShare] using h
        · obtain ⟨b2, hb2⟩ := hc3
          have hmaps : (((scnTriples B 0 specs).map Prod.snd).map
              (fun x => min x.2.2 (A.tdiv ((scnNeeds specs).length : Int)))).sum =
              ((scnNeeds specs).map
                (fun n => equalShare A ((scnNeeds specs).length : Int) n)).sum := by
            rw [scn_payload_map_equal]
            simp only [equalShare]
          rw [hmaps] at hb2
          simp only [BookInventory.getAvailableQuantity]
          rw [hb2]

end GovBooks

namespace GovBooks

/-- Claim C7 amended witness at the claim's concrete input: stock 90, X
needs 60, Y needs 30, so T = 90, X receives 60, Y receives 30 and the stock
is exhausted. -/
theorem claim7_witness :
    ((needBasedDistribute 7
        (scnState "1234567890" demoBook [("X", [60]), ("Y", [30])] 90)).getReq 0 0 =
      some ((pendingReq "" "1234567890" 60 Priority.MEDIUM).fulfillPartial 60))
    ∧ ((needBasedDistribute 7
        (scnState "1234567890" demoBook [("X", [60]), ("Y", [30])] 90)).getReq 1 0 =
      some ((pendingReq "" "1234567890" 30 Priority.MEDIUM).fulfillPartial 30))
    ∧ (needBasedDistribute 7
        (scnState "1234567890" demoBook [("X", [60]), ("Y", [30])] 90)).inv.getAvailableQuantity
          "1234567890" = 0 := by
  have h := claim7_need_proportional_amended "1234567890" demoBook
    [("X", [60]), ("Y", [30])] 90 7 (by decide) (by decide) (by decide)
  obtain ⟨h1, _, h3⟩ := h
  refine ⟨?_, ?_, ?_⟩
  · have hx := h1 ("1234567890", 0, 0, 60) (by decide)
    rw [hx]
    decide
  · have hx := h1 ("1234567890", 1, 0, 30) (by decide)
    rw [hx]
    decide
  · rw [h3]
    decide

/-- Claim C8 amended witness at the claim's concrete input: stock 100, three
institutions each holding one request of 40, so k = 3, each receives
min(40, 33) = 33 and 1 copy remains. -/
theorem claim8_witness :
    ((equalDistribute 8
        (scnState "1234567890" demoBook [("X", [40]), ("Y", [40]), ("Z", [40])] 100)).getReq 0 0 =
      some ((pendingReq "" "1234567890" 40 Priority.MEDIUM).fulfillPartial 33))
    ∧ ((equalDistribute 8
        (scnState "1234567890" demoBook [("X", [40]), ("Y", [40]), ("Z", [40])] 100)).getReq 1 0 =
      some ((pendingReq "" "1234567890" 40 Priority.MEDIUM).fulfillPartial 33))
    ∧ ((equalDistribute 8
        (scnState "1234567890" demoBook [("X", [40]), ("Y", [40]), ("Z", [40])] 100)).getReq 2 0 =
      some ((pendingReq "" "1234567890" 40 Priority.MEDIUM).fulfillPartial 33))
    ∧ (equalDistribute 8
        (scnState "1234567890" demoBook [("X", [40]), ("Y", [40]), ("Z", [40])] 100)).inv.getAvailableQuantity
          "1234567890" = 1 := by
  have h := claim8_equal_split_amended "1234567890" demoBook
    [("X", [40]), ("Y", [40]), ("Z", [40])] 100 8 (by decide) (by decide)
  obtain ⟨h1, _, h3⟩ := h
  refine ⟨?_, ?_, ?_, ?_⟩
  · have hx := h1 ("1234567890", 0, 0, 40) (by decide)
    rw [hx]
    decide
  · have hx := h1 ("1234567890", 1, 0, 40) (by decide)
    rw [hx]
    decide
  · have hx := h1 ("1234567890", 2, 0, 40) (by decide)
    rw [hx]
    decide
  · rw [h3]
    decide

end GovBooks
